import Mathlib

/-!
Verification of the dataset-reconciliation core of the
`solutions-data-organization` service (`src/sly_functions.py`,
`src/sampling.py`).

The Python functions are shallowly embedded:

* `sly.DatasetInfo` / `sly.ImageInfo` become plain structures keeping only
  the fields the core reads (`id`, `name`, `parent_id`).
* a dataset tree `Dict[DatasetInfo, Dict]` becomes a list of `DsTree`
  nodes (Python dicts preserve insertion order, so an ordered list of
  `(info, children)` pairs is the faithful picture).
* Python dict mutation becomes association-list updates with
  insert-or-replace semantics (`dictInsert`, `extendEntry`): an existing
  key keeps its position, a fresh key is appended — exactly CPython's
  ordered-dict behaviour.
* network calls (`api.image.get_list`, `api.dataset.create`, ...) become
  explicit function parameters / an explicit state-and-trace record.
* Python `float` arithmetic (used by `prepare_sample` for the
  proportional shares) is modelled exactly over `ℚ` by `rnd53`,
  round-to-nearest, ties-to-even at 53 significant bits with unbounded
  exponent — the IEEE-754 binary64 semantics of CPython floats on every
  value far from overflow/underflow, which covers all values reachable
  here.
* `random.choice` / `random.sample` become parameters: an arbitrary index
  stream `pick` and an arbitrary selection function `sampleFn`
  constrained only by the documented contract of `random.sample`.
-/

namespace DataOrg

/-- Image record: the fields of `sly.ImageInfo` the core reads. -/
structure ImageInfo where
  id : Nat
  name : String
deriving DecidableEq, Repr

/-- Dataset record: the fields of `sly.DatasetInfo` the core reads. -/
structure DatasetInfo where
  id : Nat
  name : String
  parent_id : Option Nat
deriving DecidableEq, Repr

/-- A dataset tree node: one `(DatasetInfo, children dict)` entry of the
Python tree `Dict[sly.DatasetInfo, Dict]`.  A whole tree is a
`List DsTree` (dicts iterate in insertion order). -/
inductive DsTree where
  | node (info : DatasetInfo) (children : List DsTree)

/-- Information stored at the root of a tree node. -/
def DsTree.info : DsTree → DatasetInfo
  | .node i _ => i

/-- Children of a tree node. -/
def DsTree.children : DsTree → List DsTree
  | .node _ c => c

/-- Python `dict[k] = v`: replace the value of an existing key in place,
otherwise append the new key at the end. -/
def dictInsert (m : List (Nat × Option Nat)) (k : Nat) (v : Option Nat) :
    List (Nat × Option Nat) :=
  match m with
  | [] => [(k, v)]
  | (k', v') :: rest =>
      if k' = k then (k', v) :: rest else (k', v') :: dictInsert rest k v

/-- Python `dict.get k`: value of the first (unique) entry with key `k`. -/
def dictGet {α : Type} (m : List (Nat × α)) (k : Nat) : Option α :=
  match m with
  | [] => none
  | (k', v') :: rest => if k' = k then some v' else dictGet rest k

/-- Accumulator of `create_dataset_mapping`: the two lists mutated by the
inner `process_datasets` closure (`src_to_dst_map` and `ds_to_create`). -/
structure MapState where
  map : List (Nat × Option Nat)
  creates : List Nat
deriving Repr

/-- The `for dst_info, dst_child in dst_tree.items(): if dst_info.name ==
src_ds_info.name: ... break` search: first destination sibling with an
equal name. -/
def findByName (nm : String) : List DsTree → Option DsTree
  | [] => none
  | t :: ts => if t.info.name = nm then some t else findByName nm ts

mutual

/-- One iteration of the `for src_ds_info, src_children in
src_tree.items()` loop of `process_datasets`: handle one source node and
recurse into its children. -/
def processTree (t : DsTree) (dstTree : List DsTree) (st : MapState) :
    MapState :=
  match t with
  | .node info children =>
    match findByName info.name dstTree with
    | some d =>
        processForest children d.children
          { st with map := dictInsert st.map info.id (some d.info.id) }
    | none =>
        processForest children []
          { map := dictInsert st.map info.id none
            creates := st.creates ++ [info.id] }

/-- `process_datasets(src_tree, dst_tree)`: fold `processTree` over the
source siblings in order. -/
def processForest (ts : List DsTree) (dstTree : List DsTree)
    (st : MapState) : MapState :=
  match ts with
  | [] => st
  | t :: rest => processForest rest dstTree (processTree t dstTree st)

end

/-- `create_dataset_mapping(src_ds_tree, dst_ds_tree)` from
`src/sly_functions.py`: returns `(src_to_dst_map, ds_to_create)`. -/
def create_dataset_mapping (srcTree dstTree : List DsTree) :
    List (Nat × Option Nat) × List Nat :=
  let st := processForest srcTree dstTree ⟨[], []⟩
  (st.map, st.creates)

mutual

/-- Dataset IDs of a tree node and all its descendants, in the
depth-first preorder in which `process_datasets` visits them. -/
def treeIds : DsTree → List Nat
  | .node info children => info.id :: forestIds children

/-- Dataset IDs of a forest in depth-first preorder. -/
def forestIds : List DsTree → List Nat
  | [] => []
  | t :: ts => treeIds t ++ forestIds ts

end

mutual

/-- IDs appended to `ds_to_create` while processing one source node
against the destination siblings `dst` (the appends depend only on the
trees, not on the accumulated state). -/
def createdTree (t : DsTree) (dst : List DsTree) : List Nat :=
  match t with
  | .node info children =>
    match findByName info.name dst with
    | some d => createdForest children d.children
    | none => info.id :: createdForest children []

/-- IDs appended to `ds_to_create` while processing a source forest. -/
def createdForest (ts : List DsTree) (dst : List DsTree) : List Nat :=
  match ts with
  | [] => []
  | t :: rest => createdTree t dst ++ createdForest rest dst

end

mutual

/-- Entries appended to `src_to_dst_map` while processing one source
node whose IDs are fresh (no overwrites happen then). -/
def mappedTree (t : DsTree) (dst : List DsTree) : List (Nat × Option Nat) :=
  match t with
  | .node info children =>
    match findByName info.name dst with
    | some d => (info.id, some d.info.id) :: mappedForest children d.children
    | none => (info.id, none) :: mappedForest children []

/-- Entries appended to `src_to_dst_map` while processing a forest. -/
def mappedForest (ts : List DsTree) (dst : List DsTree) :
    List (Nat × Option Nat) :=
  match ts with
  | [] => []
  | t :: rest => mappedTree t dst ++ mappedForest rest dst

end

/-- `defaultdict(list)` access-and-extend: `diff_images[k].extend(v)` /
`diff_images[k].append(img)`.  The bare access creates the entry, so the
key is added even when `v` is empty. -/
def extendEntry (m : List (Nat × List ImageInfo)) (k : Nat)
    (v : List ImageInfo) : List (Nat × List ImageInfo) :=
  match m with
  | [] => [(k, v)]
  | (k', v') :: rest =>
      if k' = k then (k', v' ++ v) :: rest
      else (k', v') :: extendEntry rest k v

/-- One step of the comprehension `{img.name: img for img in src_imgs}`:
an existing name keeps its position and gets the newer image, a fresh
name is appended. -/
def imgDictInsert (m : List (String × ImageInfo)) (img : ImageInfo) :
    List (String × ImageInfo) :=
  match m with
  | [] => [(img.name, img)]
  | (n, i) :: rest =>
      if n = img.name then (n, img) :: rest
      else (n, i) :: imgDictInsert rest img

/-- `src_imgs_dict = {img.name: img for img in src_imgs}`, in iteration
order (`.items()`). -/
def imgsByName (l : List ImageInfo) : List (String × ImageInfo) :=
  l.foldl imgDictInsert []

/-- Body of the `for src_ds in src_datasets` loop of `get_diffs`: add the
difference images of one dataset to the accumulated `defaultdict`. -/
def diffStep (getList : Nat → List ImageInfo) (m : List (Nat × Option Nat))
    (acc : List (Nat × List ImageInfo)) (ds : DatasetInfo) :
    List (Nat × List ImageInfo) :=
  let srcImgs := getList ds.id
  match dictGet m ds.id with
  | some (some dstId) =>
      let dstNames := (getList dstId).map ImageInfo.name
      (imgsByName srcImgs).foldl
        (fun a p => if p.1 ∈ dstNames then a else extendEntry a ds.id [p.2])
        acc
  | _ => extendEntry acc ds.id srcImgs

/-- `get_diffs(api, src_datasets, src_tree, dst_tree)` from
`src/sly_functions.py` with `api.image.get_list` supplied as the function
`getList`; returns `(diff_images, src_to_dst_map, ds_to_create)`. -/
def get_diffs (getList : Nat → List ImageInfo)
    (srcDatasets : List DatasetInfo) (srcTree dstTree : List DsTree) :
    List (Nat × List ImageInfo) × List (Nat × Option Nat) × List Nat :=
  let mc := create_dataset_mapping srcTree dstTree
  (srcDatasets.foldl (diffStep getList mc.1) [], mc.1, mc.2)

/-- Contribution of one source dataset to `diff_images`, as an
`Option` (`none` when the dataset adds no entry): used to characterize
`get_diffs` per dataset. -/
def dsDiffImages (getList : Nat → List ImageInfo)
    (m : List (Nat × Option Nat)) (ds : DatasetInfo) :
    Option (List ImageInfo) :=
  match dictGet m ds.id with
  | some (some dstId) =>
      let kept := ((imgsByName (getList ds.id)).filter
        (fun p => !(decide (p.1 ∈ (getList dstId).map ImageInfo.name)))).map
          Prod.snd
      if kept = [] then none else some kept
  | _ => some (getList ds.id)

/-- Number of binary digits of the second argument, driven by fuel so the
kernel can evaluate it (`bitLen n = Nat.log2 n + 1` for positive `n`). -/
def bitLenAux : Nat → Nat → Nat
  | 0, _ => 0
  | fuel + 1, n => if n = 0 then 0 else bitLenAux fuel (n / 2) + 1

/-- Number of binary digits of `n`. -/
def bitLen (n : Nat) : Nat := bitLenAux n n

/-- `2 ^ e` over `ℚ` for an integer exponent. -/
def pow2 (e : Int) : ℚ :=
  if 0 ≤ e then ((2 ^ e.toNat : Nat) : ℚ)
  else 1 / ((2 ^ (-e).toNat : Nat) : ℚ)

/-- Round a rational to the nearest integer, ties to the even one. -/
def roundHalfEven (x : ℚ) : Int :=
  let f := ⌊x⌋
  let r := x - f
  if r < 1 / 2 then f
  else if 1 / 2 < r then f + 1
  else if f % 2 = 0 then f else f + 1

/-- Significand/exponent split of a positive rational: returns `(m, e)`
with `x = m * 2 ^ e` and `2 ^ 52 ≤ m < 2 ^ 53`. -/
def mantExp (x : ℚ) : ℚ × Int :=
  let e1 : Int := (bitLen x.num.natAbs : Int) - (bitLen x.den : Int) - 52
  let m1 := x * pow2 (-e1)
  if m1 < ((2 ^ 52 : Nat) : ℚ) then (x * pow2 (-(e1 - 1)), e1 - 1)
  else if ((2 ^ 53 : Nat) : ℚ) ≤ m1 then (x * pow2 (-(e1 + 1)), e1 + 1)
  else (m1, e1)

/-- Rounding of a positive rational to 53 significant bits. -/
def rnd53pos (x : ℚ) : ℚ :=
  ((roundHalfEven (mantExp x).1 : ℚ)) * pow2 (mantExp x).2

/-- Round-to-nearest, ties-to-even at 53 significant bits with unbounded
exponent: the value IEEE-754 binary64 arithmetic produces for any exact
result in the normal range.  CPython floats are binary64 and its `int /
int` true division and `float * float` multiplication are correctly
rounded, so this models the float expressions of `prepare_sample`
exactly (all values reachable there are far from overflow and
subnormals). -/
def rnd53 (x : ℚ) : ℚ :=
  if x = 0 then 0
  else if x < 0 then - rnd53pos (-x)
  else rnd53pos x

/-- `int((len(imgs) / total_diffs) * sample_size)` — line 125 of
`src/sly_functions.py`: a correctly rounded binary64 division, a
correctly rounded int-to-float conversion of `sample_size`, a correctly
rounded binary64 multiplication, then `int` truncation (the value is
nonnegative, so truncation is the floor). -/
def pyShare (a t s : Nat) : Nat :=
  ⌊rnd53 (rnd53 ((a : ℚ) / (t : ℚ)) * rnd53 (s : ℚ))⌋.toNat

/-- `total_diffs = sum(len(imgs) for imgs in diffs.values())`. -/
def total_diffs (diffs : List (Nat × List ImageInfo)) : Nat :=
  (diffs.map (fun p => p.2.length)).sum

/-- `len(diffs[k])` (Python dict lookup). -/
def lenOf (diffs : List (Nat × List ImageInfo)) (k : Nat) : Nat :=
  ((dictGet diffs k).getD []).length

/-- `samples_per_dataset[k] += 1`, with the dict as a function. -/
def update1 (sh : Nat → Nat) (k : Nat) : Nat → Nat :=
  fun j => if j = k then sh j + 1 else sh j

/-- The `while remaining > 0 and datasets_with_space:` loop of
`prepare_sample` (lines 134-140).  `random.choice` is modelled by an
arbitrary index stream `pick` consumed one value per iteration;
`datasets_with_space.remove(ds_id)` is `List.erase` (first occurrence by
value).  The loop terminates because every iteration either decrements
`rem` or shortens `space`. -/
def dist_loop (len_ : Nat → Nat) (pick : Nat → Nat) (step : Nat)
    (sh : Nat → Nat) (space : List Nat) (rem : Nat) : Nat → Nat :=
  if rem = 0 then sh
  else
    match space with
    | [] => sh
    | x :: xs =>
      let ds := (x :: xs).getD (pick step % (x :: xs).length) 0
      if len_ ds > sh ds then
        dist_loop len_ pick (step + 1) (update1 sh ds) (x :: xs) (rem - 1)
      else
        dist_loop len_ pick (step + 1) sh ((x :: xs).erase ds) rem
termination_by (rem, space.length)
decreasing_by
  · apply Prod.Lex.left
    omega
  · apply Prod.Lex.right
    have hmem : ds ∈ x :: xs := by
      show (x :: xs).getD (pick step % (x :: xs).length) 0 ∈ x :: xs
      have hlt : pick step % (x :: xs).length < (x :: xs).length :=
        Nat.mod_lt _ (by simp)
      rw [List.getD_eq_getElem _ _ hlt]
      exact List.getElem_mem _
    have := List.length_erase_of_mem hmem
    simp only [this]
    simp

/-- `samples_per_dataset` after the proportional pass (line 125), as a
function of the dataset ID. -/
def init_shares (diffs : List (Nat × List ImageInfo)) (sample_size : Nat) :
    Nat → Nat :=
  fun k => pyShare (lenOf diffs k) (total_diffs diffs) sample_size

/-- `remaining` after the proportional pass: `sample_size` minus the sum
of the per-entry shares (a Python int, possibly negative). -/
def init_rem (diffs : List (Nat × List ImageInfo)) (sample_size : Nat) :
    Int :=
  (sample_size : Int) -
    (diffs.map (fun p =>
      (pyShare p.2.length (total_diffs diffs) sample_size : Int))).sum

/-- `datasets_with_space` (lines 131-133). -/
def space0 (diffs : List (Nat × List ImageInfo)) (sample_size : Nat) :
    List Nat :=
  (diffs.filter
    (fun p => p.2.length > init_shares diffs sample_size p.1)).map Prod.fst

/-- `samples_per_dataset` after the remainder-distribution loop (lines
129-140): the loop runs only when `remaining > 0`. -/
def final_shares (pick : Nat → Nat) (diffs : List (Nat × List ImageInfo))
    (sample_size : Nat) : Nat → Nat :=
  if 0 < init_rem diffs sample_size then
    dist_loop (lenOf diffs) pick 0 (init_shares diffs sample_size)
      (space0 diffs sample_size) (init_rem diffs sample_size).toNat
  else init_shares diffs sample_size

/-- `prepare_sample(diffs, sample_size)` from `src/sly_functions.py`.
`random.choice` and `random.sample` are modelled by the parameters
`pick` (arbitrary index stream) and `sampleFn` (arbitrary selection
function; `random.sample(l, k)` returns `k` distinct elements of `l`
when `k ≤ len(l)` and raises otherwise). -/
def prepare_sample (pick : Nat → Nat)
    (sampleFn : List ImageInfo → Nat → List ImageInfo)
    (diffs : List (Nat × List ImageInfo)) (sample_size : Nat) :
    List (Nat × List ImageInfo) :=
  if sample_size ≥ total_diffs diffs then diffs
  else
    diffs.filterMap (fun p =>
      if final_shares pick diffs sample_size p.1 > 0 then
        some (p.1, sampleFn ((dictGet diffs p.1).getD [])
          (final_shares pick diffs sample_size p.1))
      else none)

/-- Requests issued to the external platform by `copy_or_move_images`,
in order. -/
inductive ApiEvent where
  | created (dstId : Nat) (name : String) (parentId : Option Nat)
  | copied (srcDs : Nat) (dstDs : Option Nat) (imgIds : List Nat)
      (newIds : List Nat)
  | deleted (imgIds : List Nat)
deriving DecidableEq, Repr

/-- State of the external platform as seen by the transfer executor: a
fresh-ID counter and the request trace. -/
structure ApiState where
  nextId : Nat
  trace : List ApiEvent
deriving DecidableEq, Repr

/-- `api.dataset.create(dst_project_id, name, parent_id)`: returns a
fresh dataset ID. -/
def apiCreate (st : ApiState) (name : String) (parentId : Option Nat) :
    Nat × ApiState :=
  (st.nextId,
    { nextId := st.nextId + 1
      trace := st.trace ++ [.created st.nextId name parentId] })

/-- `api.image.copy_batch_optimized(...)`: returns freshly created image
records order-aligned with the input. -/
def apiCopy (st : ApiState) (srcDs : Nat) (dstDs : Option Nat)
    (imgIds : List Nat) : List Nat × ApiState :=
  let newIds := (List.range imgIds.length).map (fun i => st.nextId + i)
  (newIds,
    { nextId := st.nextId + imgIds.length
      trace := st.trace ++ [.copied srcDs dstDs imgIds newIds] })

/-- Consecutive batches of at most `n` elements (`n > 0`), covering the
list in order. -/
def chunks {α : Type} : Nat → List α → List (List α)
  | _, [] => []
  | 0, l => [l]
  | n + 1, x :: xs =>
      ((x :: xs).take (n + 1)) :: chunks (n + 1) ((x :: xs).drop (n + 1))
termination_by _ l => l.length
decreasing_by
  simp
  omega

/-- Modelled from the spec: `api.image.remove_batch(ids, batch_size)` is
a capability of the external labeling platform (spec section 6,
`delete_images(ids, batch_size)`, and section 4.4 "batch size capped at
200 per request"): it issues one delete request per consecutive batch of
at most `batch_size` IDs, covering the list exactly once. -/
def apiRemoveBatch (st : ApiState) (imgIds : List Nat) (batchSize : Nat) :
    ApiState :=
  { st with trace := st.trace ++ (chunks batchSize imgIds).map .deleted }

/-- `api.dataset.get_info_by_id` over the known source datasets (also
the dict `src_id_to_info` built at line 175). -/
def findDs (dss : List DatasetInfo) (i : Nat) : Option DatasetInfo :=
  match dss with
  | [] => none
  | d :: rest => if d.id = i then some d else findDs rest i

/-- The `while parent_id := current.parent_id:` walk (lines 177-181):
ancestor IDs nearest-parent-first.  Fuel bounds the walk; for an acyclic
forest whose ancestors are all present, `dss.length` steps suffice. -/
def parentChainAux (dss : List DatasetInfo) : Nat → Option Nat → List Nat
  | _, none => []
  | 0, some _ => []
  | fuel + 1, some p =>
      p :: (match findDs dss p with
            | some pi => parentChainAux dss fuel pi.parent_id
            | none => [])

/-- `src_child_to_parents[i]`: the ancestor chain of dataset `i`,
nearest-parent-first. -/
def src_child_to_parents (dss : List DatasetInfo) (i : Nat) : List Nat :=
  match findDs dss i with
  | some ds => parentChainAux dss dss.length ds.parent_id
  | none => []

/-- Accumulator of `copy_or_move_images`: the (mutated) correspondence,
the platform state/trace, and the `src` / `added` result dicts. -/
structure TransferState where
  map : List (Nat × Option Nat)
  api : ApiState
  src : List (Nat × List Nat)
  added : List (Option Nat × List Nat)
deriving DecidableEq, Repr

/-- Python `dict[k] = v` for an arbitrary key type (used for the `src`
and `added` result dicts). -/
def dictInsertG {κ α : Type} [DecidableEq κ] (m : List (κ × α)) (k : κ)
    (v : α) : List (κ × α) :=
  match m with
  | [] => [(k, v)]
  | (k', v') :: rest =>
      if k' = k then (k', v) :: rest else (k', v') :: dictInsertG rest k v

/-- Lines 190-198 of `src/sly_functions.py`: walk `src_parent_ids` in
list order (which is nearest-parent-first), unconditionally creating a
destination dataset for each ancestor, threading `dst_parent_id`, and
caching each new ID into the correspondence. -/
def ancestorStep (dss : List DatasetInfo) (p : Option Nat × TransferState)
    (parentId : Nat) : Option Nat × TransferState :=
  let name := match findDs dss parentId with
    | some pi => pi.name
    | none => ""
  let r := apiCreate p.2.api name p.1
  (some r.1,
    { p.2 with
      api := r.2
      map := dictInsert p.2.map parentId (some r.1) })

def create_ancestors (dss : List DatasetInfo) (st : TransferState)
    (parents : List Nat) : Option Nat × TransferState :=
  parents.foldl (ancestorStep dss) (none, st)

/-- Body of the `for src_ds_id, src_imgs in sampled_images.items()` loop
of `copy_or_move_images` (lines 185-219). -/
def comStep (dss : List DatasetInfo) (ds_to_create : List Nat)
    (move : Bool) (st : TransferState) (entry : Nat × List ImageInfo) :
    TransferState :=
  let srcDsId := entry.1
  let srcImgs := entry.2
  if srcImgs.length > 0 then
    let dst0 : Option Nat := (dictGet st.map srcDsId).getD none
    let r1 : Option Nat × TransferState :=
      if dst0 = none ∧ srcDsId ∈ ds_to_create then
        let parents := src_child_to_parents dss srcDsId
        let r := create_ancestors dss st parents
        let name := match findDs dss srcDsId with
          | some i => i.name
          | none => ""
        let rc := apiCreate r.2.api name r.1
        (some rc.1,
          { r.2 with
            api := rc.2
            map := dictInsert r.2.map srcDsId (some rc.1) })
      else (dst0, st)
    let dstDsId := r1.1
    let st1 := r1.2
    let rcopy := apiCopy st1.api srcDsId dstDsId (srcImgs.map ImageInfo.id)
    let api4 :=
      if move then apiRemoveBatch rcopy.2 (srcImgs.map ImageInfo.id) 200
      else rcopy.2
    { st1 with
      api := api4
      src := dictInsertG st1.src srcDsId (srcImgs.map ImageInfo.id)
      added := dictInsertG st1.added dstDsId rcopy.1 }
  else st

/-- `copy_or_move_images(api, dst_project_id, src_to_dst_map,
sampled_images, ds_to_create, src_datasets, move)` from
`src/sly_functions.py`, with the platform modelled by
`ApiState`. -/
def copy_or_move_images (dss : List DatasetInfo)
    (src_to_dst_map : List (Nat × Option Nat))
    (sampled_images : List (Nat × List ImageInfo))
    (ds_to_create : List Nat) (move : Bool) (st0 : ApiState) :
    TransferState :=
  sampled_images.foldl (comStep dss ds_to_create move)
    { map := src_to_dst_map, api := st0, src := [], added := [] }

/-- `run_random_sample(src_project_id, dst_project_id, sample_size)` from
`src/sampling.py`, after the initial listing calls: `none` models the
`{"src": None, "dst": None}` early returns. -/
def run_random_sample (getList : Nat → List ImageInfo)
    (srcDatasets : List DatasetInfo) (srcTree dstTree : List DsTree)
    (sample_size : Nat) (pick : Nat → Nat)
    (sampleFn : List ImageInfo → Nat → List ImageInfo) (st0 : ApiState) :
    Option (List (Nat × List Nat) × List (Option Nat × List Nat)) :=
  if sample_size = 0 then none
  else
    let r := get_diffs getList srcDatasets srcTree dstTree
    if r.1 = [] then none
    else
      let sampled := prepare_sample pick sampleFn r.1 sample_size
      let ts := copy_or_move_images srcDatasets r.2.1 sampled r.2.2 false st0
      some (ts.src, ts.added)

theorem dictGet_dictInsert (m : List (Nat × Option Nat)) (k j : Nat)
    (v : Option Nat) :
    dictGet (dictInsert m k v) j = if j = k then some v else dictGet m j := by
  induction m with
  | nil =>
      by_cases h : j = k
      · simp [dictInsert, dictGet, h]
      · simp [dictInsert, dictGet, h, Ne.symm h]
  | cons p rest ih =>
      obtain ⟨k', v'⟩ := p
      by_cases hk : k' = k <;> by_cases hj : j = k <;>
        by_cases hj2 : k' = j <;> simp_all [dictInsert, dictGet]

theorem dictInsert_fresh (m : List (Nat × Option Nat)) (k : Nat)
    (v : Option Nat) (h : k ∉ m.map Prod.fst) :
    dictInsert m k v = m ++ [(k, v)] := by
  induction m with
  | nil => rfl
  | cons p rest ih =>
      obtain ⟨k', v'⟩ := p
      simp only [List.map_cons, List.mem_cons] at h
      push_neg at h
      simp [dictInsert, Ne.symm h.1, ih h.2]

mutual

theorem processTree_creates (t : DsTree) (dst : List DsTree)
    (st : MapState) :
    (processTree t dst st).creates = st.creates ++ createdTree t dst := by
  match t with
  | .node info children =>
    cases h : findByName info.name dst with
    | some d =>
        simp [processTree, createdTree, h,
          processForest_creates children d.children]
    | none =>
        simp [processTree, createdTree, h, processForest_creates children []]

theorem processForest_creates (ts : List DsTree) (dst : List DsTree)
    (st : MapState) :
    (processForest ts dst st).creates = st.creates ++ createdForest ts dst := by
  match ts with
  | [] => simp [processForest, createdForest]
  | t :: rest =>
      simp [processForest, createdForest, processForest_creates rest dst,
        processTree_creates t dst st, List.append_assoc]

end

mutual

theorem createdTree_sublist (t : DsTree) (dst : List DsTree) :
    (createdTree t dst).Sublist (treeIds t) := by
  match t with
  | .node info children =>
    cases h : findByName info.name dst with
    | some d =>
        simp only [createdTree, h, treeIds]
        exact (createdForest_sublist children d.children).cons _
    | none =>
        simp only [createdTree, h, treeIds]
        exact (createdForest_sublist children []).cons₂ _

theorem createdForest_sublist (ts : List DsTree) (dst : List DsTree) :
    (createdForest ts dst).Sublist (forestIds ts) := by
  match ts with
  | [] => simp [createdForest, forestIds]
  | t :: rest =>
      simp only [createdForest, forestIds]
      exact (createdTree_sublist t dst).append (createdForest_sublist rest dst)

end

mutual

theorem mappedTree_keys (t : DsTree) (dst : List DsTree) :
    (mappedTree t dst).map Prod.fst = treeIds t := by
  match t with
  | .node info children =>
    cases h : findByName info.name dst with
    | some d =>
        simp [mappedTree, h, treeIds, mappedForest_keys children d.children]
    | none => simp [mappedTree, h, treeIds, mappedForest_keys children []]

theorem mappedForest_keys (ts : List DsTree) (dst : List DsTree) :
    (mappedForest ts dst).map Prod.fst = forestIds ts := by
  match ts with
  | [] => simp [mappedForest, forestIds]
  | t :: rest =>
      simp [mappedForest, forestIds, mappedTree_keys t dst,
        mappedForest_keys rest dst]

end

mutual

theorem processTree_map_fresh (t : DsTree) (dst : List DsTree)
    (st : MapState) (hdisj : ∀ id ∈ treeIds t, id ∉ st.map.map Prod.fst)
    (hnd : (treeIds t).Nodup) :
    (processTree t dst st).map = st.map ++ mappedTree t dst := by
  match t with
  | .node info children =>
    simp only [treeIds] at hdisj hnd
    have hfresh : info.id ∉ st.map.map Prod.fst :=
      hdisj info.id (List.mem_cons_self _ _)
    cases h : findByName info.name dst with
    | some d =>
        simp only [processTree, h, mappedTree]
        rw [dictInsert_fresh _ _ _ hfresh]
        rw [processForest_map_fresh children d.children _
          (fun id hid => by
            have h1 : id ∉ st.map.map Prod.fst :=
              hdisj id (List.mem_cons_of_mem _ hid)
            have h2 : id ≠ info.id := by
              intro hh
              exact (List.nodup_cons.mp hnd).1 (hh ▸ hid)
            simp [h1, h2])
          (List.nodup_cons.mp hnd).2]
        simp
    | none =>
        simp only [processTree, h, mappedTree]
        rw [dictInsert_fresh _ _ _ hfresh]
        rw [processForest_map_fresh children [] _
          (fun id hid => by
            have h1 : id ∉ st.map.map Prod.fst :=
              hdisj id (List.mem_cons_of_mem _ hid)
            have h2 : id ≠ info.id := by
              intro hh
              exact (List.nodup_cons.mp hnd).1 (hh ▸ hid)
            simp [h1, h2])
          (List.nodup_cons.mp hnd).2]
        simp

theorem processForest_map_fresh (ts : List DsTree) (dst : List DsTree)
    (st : MapState) (hdisj : ∀ id ∈ forestIds ts, id ∉ st.map.map Prod.fst)
    (hnd : (forestIds ts).Nodup) :
    (processForest ts dst st).map = st.map ++ mappedForest ts dst := by
  match ts with
  | [] => simp [processForest, mappedForest]
  | t :: rest =>
      simp only [forestIds] at hdisj hnd
      rw [List.nodup_append] at hnd
      obtain ⟨hndt, hndr, hdisj2⟩ := hnd
      have hdt : ∀ id ∈ treeIds t, id ∉ st.map.map Prod.fst := fun id hid =>
        hdisj id (List.mem_append_left _ hid)
      simp only [processForest]
      rw [processForest_map_fresh rest dst _
        (fun id hid => by
          rw [processTree_map_fresh t dst st hdt hndt]
          simp only [List.map_append, List.mem_append, mappedTree_keys]
          push_neg
          exact ⟨hdisj id (List.mem_append_right _ hid),
            fun hmem => hdisj2 hmem hid⟩)
        hndr]
      rw [processTree_map_fresh t dst st hdt hndt]
      simp [mappedForest, List.append_assoc]

end

theorem dictGet_append (l1 l2 : List (Nat × Option Nat)) (k : Nat) :
    dictGet (l1 ++ l2) k =
      match dictGet l1 k with
      | some v => some v
      | none => dictGet l2 k := by
  induction l1 with
  | nil => simp [dictGet]
  | cons p rest ih =>
      obtain ⟨k', v'⟩ := p
      by_cases h : k' = k <;> simp [dictGet, h, ih]

theorem dictGet_some_mem {α : Type} (m : List (Nat × α)) (k : Nat) (v : α)
    (h : dictGet m k = some v) : k ∈ m.map Prod.fst := by
  induction m with
  | nil => simp [dictGet] at h
  | cons p rest ih =>
      obtain ⟨k', v'⟩ := p
      by_cases hk : k' = k
      · simp [hk]
      · simp only [dictGet, if_neg hk] at h
        simp [ih h]

theorem dictGet_none_not_mem {α : Type} (m : List (Nat × α)) (k : Nat)
    (h : dictGet m k = none) : k ∉ m.map Prod.fst := by
  induction m with
  | nil => simp
  | cons q rest ih =>
      obtain ⟨k', v'⟩ := q
      by_cases hk : k' = k
      · simp [dictGet, hk] at h
      · simp only [dictGet, if_neg hk] at h
        simp only [List.map_cons, List.mem_cons]
        push_neg
        exact ⟨fun hh => hk hh.symm, ih h⟩

theorem dictGet_eq_none {α : Type} (m : List (Nat × α)) (k : Nat)
    (h : k ∉ m.map Prod.fst) : dictGet m k = none := by
  induction m with
  | nil => rfl
  | cons p rest ih =>
      obtain ⟨k', v'⟩ := p
      simp only [List.map_cons, List.mem_cons] at h
      push_neg at h
      simp [dictGet, Ne.symm h.1, ih h.2]

mutual

theorem createdTree_nil (t : DsTree) : createdTree t [] = treeIds t := by
  match t with
  | .node info children =>
      simp [createdTree, findByName, treeIds, createdForest_nil children]

theorem createdForest_nil (ts : List DsTree) :
    createdForest ts [] = forestIds ts := by
  match ts with
  | [] => rfl
  | t :: rest =>
      simp [createdForest, forestIds, createdTree_nil t, createdForest_nil rest]

end

mutual

theorem processTree_nil_get (t : DsTree) (st : MapState) (id : Nat) :
    dictGet (processTree t [] st).map id =
      if id ∈ treeIds t then some none else dictGet st.map id := by
  match t with
  | .node info children =>
      have h : findByName info.name ([] : List DsTree) = none := rfl
      simp only [processTree, h]
      rw [processForest_nil_get children _ id]
      simp only [treeIds, List.mem_cons]
      by_cases h1 : id ∈ forestIds children
      · simp [h1]
      · by_cases h2 : id = info.id <;>
          simp [h1, h2, dictGet_dictInsert]

theorem processForest_nil_get (ts : List DsTree) (st : MapState) (id : Nat) :
    dictGet (processForest ts [] st).map id =
      if id ∈ forestIds ts then some none else dictGet st.map id := by
  match ts with
  | [] => simp [processForest, forestIds]
  | t :: rest =>
      simp only [processForest]
      rw [processForest_nil_get rest _ id, processTree_nil_get t st id]
      simp only [forestIds, List.mem_append]
      by_cases h1 : id ∈ forestIds rest
      · simp [h1]
      · by_cases h2 : id ∈ treeIds t <;> simp [h1, h2]

end

mutual

theorem mappedTree_value_iff (t : DsTree) (dst : List DsTree)
    (hnd : (treeIds t).Nodup) (id : Nat) (v : Option Nat)
    (h : dictGet (mappedTree t dst) id = some v) :
    v = none ↔ id ∈ createdTree t dst := by
  match t with
  | .node info children =>
      simp only [treeIds, List.nodup_cons] at hnd
      cases hm : findByName info.name dst with
      | some d =>
          simp only [mappedTree, hm] at h
          simp only [createdTree, hm]
          by_cases hid : info.id = id
          · simp only [dictGet, if_pos hid] at h
            have hv : v = some d.info.id := (Option.some_inj.mp h).symm
            subst hv
            subst hid
            constructor
            · intro hc
              exact absurd hc (by simp)
            · intro hc
              exact absurd ((createdForest_sublist children d.children).subset hc)
                hnd.1
          · simp only [dictGet, if_neg hid] at h
            exact mappedForest_value_iff children d.children hnd.2 id v h
      | none =>
          simp only [mappedTree, hm] at h
          simp only [createdTree, hm]
          by_cases hid : info.id = id
          · simp only [dictGet, if_pos hid] at h
            obtain rfl := (Option.some_inj.mp h).symm
            subst hid
            simp
          · simp only [dictGet, if_neg hid] at h
            rw [mappedForest_value_iff children [] hnd.2 id v h]
            constructor
            · intro hv
              exact List.mem_cons_of_mem _ hv
            · intro hv
              rcases List.mem_cons.mp hv with hv | hv
              · exact absurd hv.symm hid
              · exact hv

theorem mappedForest_value_iff (ts : List DsTree) (dst : List DsTree)
    (hnd : (forestIds ts).Nodup) (id : Nat) (v : Option Nat)
    (h : dictGet (mappedForest ts dst) id = some v) :
    v = none ↔ id ∈ createdForest ts dst := by
  match ts with
  | [] => simp [mappedForest, dictGet] at h
  | t :: rest =>
      simp only [forestIds, List.nodup_append] at hnd
      obtain ⟨hndt, hndr, hdisj⟩ := hnd
      simp only [mappedForest] at h
      rw [dictGet_append] at h
      simp only [createdForest, List.mem_append]
      cases hg : dictGet (mappedTree t dst) id with
      | some w =>
          rw [hg] at h
          have hwv : some w = some v := h
          rw [Option.some_inj.mp hwv] at hg
          have hmem : id ∈ treeIds t := by
            have := dictGet_some_mem _ _ _ hg
            rwa [mappedTree_keys] at this
          constructor
          · intro hv; exact Or.inl ((mappedTree_value_iff t dst hndt id v hg).mp hv)
          · intro hv
            rcases hv with hv | hv
            · exact (mappedTree_value_iff t dst hndt id v hg).mpr hv
            · exact absurd ((createdForest_sublist rest dst).subset hv)
                (fun hh => hdisj hmem hh)
      | none =>
          rw [hg] at h
          have hnmem : id ∉ treeIds t := by
            rw [← mappedTree_keys t dst]
            exact dictGet_none_not_mem _ _ hg
          rw [mappedForest_value_iff rest dst hndr id v h]
          constructor
          · intro hv; exact Or.inr hv
          · intro hv
            rcases hv with hv | hv
            · exact absurd ((createdTree_sublist t dst).subset hv) hnmem
            · exact hv

end

/-- C7: in `create_dataset_mapping`, when a source node has no name-equal
child among the corresponding destination node's children (`findByName`
returns `none`), that node and all of its descendants are mapped to the
absent marker (`none`) and appended to the creation list — regardless of
the rest of the destination tree, so a same-named dataset elsewhere in
the destination tree changes nothing: matching is strictly positional by
parent, not global by name. -/
theorem unmatched_node_maps_subtree_absent
    (info : DatasetInfo) (children : List DsTree) (dstTree : List DsTree)
    (st : MapState) (h : findByName info.name dstTree = none) :
    ∀ id ∈ treeIds (.node info children),
      dictGet (processTree (.node info children) dstTree st).map id =
        some none ∧
      id ∈ (processTree (.node info children) dstTree st).creates := by
  intro id hid
  simp only [treeIds, List.mem_cons] at hid
  constructor
  · simp only [processTree, h]
    rw [processForest_nil_get]
    rcases hid with hid | hid
    · by_cases h2 : id ∈ forestIds children
      · simp [h2]
      · simp [h2, hid, dictGet_dictInsert]
    · simp [hid]
  · simp only [processTree, h]
    rw [processForest_creates, createdForest_nil]
    simp only [List.mem_append, List.mem_cons]
    rcases hid with hid | hid
    · exact Or.inl (Or.inr (by simp [hid]))
    · exact Or.inr hid

/-- Witness for the C7 theorem: a two-level source chain `a / b` against a
destination tree that has no root named `a` but does contain a node named
`b` deeper inside; both source datasets end up absent and in the creation
list. -/
theorem unmatched_node_maps_subtree_absent_witness :
    dictGet (processTree
        (.node ⟨1, "a", none⟩ [.node ⟨2, "b", some 1⟩ []])
        [.node ⟨10, "c", none⟩ [.node ⟨11, "b", some 10⟩ []]]
        ⟨[], []⟩).map 2 = some none ∧
      2 ∈ (processTree
        (.node ⟨1, "a", none⟩ [.node ⟨2, "b", some 1⟩ []])
        [.node ⟨10, "c", none⟩ [.node ⟨11, "b", some 10⟩ []]]
        ⟨[], []⟩).creates :=
  unmatched_node_maps_subtree_absent ⟨1, "a", none⟩ [.node ⟨2, "b", some 1⟩ []]
    [.node ⟨10, "c", none⟩ [.node ⟨11, "b", some 10⟩ []]] ⟨[], []⟩
    (by rfl) 2 (by simp [treeIds, forestIds])

/-- C10: for source trees with distinct dataset IDs, the two outputs of
`create_dataset_mapping` are mutually consistent: every source node gets
exactly one correspondence entry (the key list is exactly the preorder
ID list of the source tree), an entry's value is the absent marker iff
that ID is in the creation list, and the creation list has no
duplicates. -/
theorem create_dataset_mapping_consistent (srcTree dstTree : List DsTree)
    (hnd : (forestIds srcTree).Nodup) :
    ((create_dataset_mapping srcTree dstTree).1.map Prod.fst =
        forestIds srcTree) ∧
      (∀ id v, dictGet (create_dataset_mapping srcTree dstTree).1 id = some v →
        (v = none ↔ id ∈ (create_dataset_mapping srcTree dstTree).2)) ∧
      (create_dataset_mapping srcTree dstTree).2.Nodup := by
  have hmap : (create_dataset_mapping srcTree dstTree).1 =
      mappedForest srcTree dstTree := by
    show (processForest srcTree dstTree ⟨[], []⟩).map = _
    rw [processForest_map_fresh srcTree dstTree ⟨[], []⟩
      (by intro id hid; simp) hnd]
    simp
  have hcr : (create_dataset_mapping srcTree dstTree).2 =
      createdForest srcTree dstTree := by
    show (processForest srcTree dstTree ⟨[], []⟩).creates = _
    rw [processForest_creates]
    simp
  refine ⟨?_, ?_, ?_⟩
  · rw [hmap, mappedForest_keys]
  · intro id v hg
    rw [hmap] at hg
    rw [hcr]
    exact mappedForest_value_iff srcTree dstTree hnd id v hg
  · rw [hcr]
    exact hnd.sublist (createdForest_sublist srcTree dstTree)

/-- Witness for the C10 theorem at a concrete pair of trees: source has
roots `a` (with child `b`) and `c`; destination only has `a`, so `b` and
`c` are created and `a` is matched. -/
theorem create_dataset_mapping_consistent_witness :
    (((create_dataset_mapping
        [.node ⟨1, "a", none⟩ [.node ⟨2, "b", some 1⟩ []],
          .node ⟨3, "c", none⟩ []]
        [.node ⟨20, "a", none⟩ []]).1.map Prod.fst =
      forestIds [.node ⟨1, "a", none⟩ [.node ⟨2, "b", some 1⟩ []],
          .node ⟨3, "c", none⟩ []]) ∧
      (∀ id v, dictGet (create_dataset_mapping
          [.node ⟨1, "a", none⟩ [.node ⟨2, "b", some 1⟩ []],
            .node ⟨3, "c", none⟩ []]
          [.node ⟨20, "a", none⟩ []]).1 id = some v →
        (v = none ↔ id ∈ (create_dataset_mapping
          [.node ⟨1, "a", none⟩ [.node ⟨2, "b", some 1⟩ []],
            .node ⟨3, "c", none⟩ []]
          [.node ⟨20, "a", none⟩ []]).2)) ∧
      (create_dataset_mapping
        [.node ⟨1, "a", none⟩ [.node ⟨2, "b", some 1⟩ []],
          .node ⟨3, "c", none⟩ []]
        [.node ⟨20, "a", none⟩ []]).2.Nodup) :=
  create_dataset_mapping_consistent
    [.node ⟨1, "a", none⟩ [.node ⟨2, "b", some 1⟩ []], .node ⟨3, "c", none⟩ []]
    [.node ⟨20, "a", none⟩ []]
    (by simp [forestIds, treeIds])

theorem pow2_eq_zpow (e : Int) : pow2 e = (2 : ℚ) ^ e := by
  unfold pow2
  by_cases h : 0 ≤ e
  · rw [if_pos h]
    push_cast
    rw [← zpow_natCast]
    congr 1
    omega
  · rw [if_neg h]
    push_cast
    rw [← zpow_natCast, one_div, ← zpow_neg]
    congr 1
    omega

theorem castPow2 (n : Nat) : ((2 ^ n : Nat) : ℚ) = (2 : ℚ) ^ n := by
  push_cast
  ring

theorem bitLenAux_zero (fuel : Nat) : bitLenAux fuel 0 = 0 := by
  cases fuel <;> simp [bitLenAux]

theorem bitLenAux_bounds (fuel : Nat) : ∀ n, 1 ≤ n → n ≤ fuel →
    1 ≤ bitLenAux fuel n ∧ 2 ^ (bitLenAux fuel n - 1) ≤ n ∧
      n < 2 ^ bitLenAux fuel n := by
  induction fuel with
  | zero => intro n h1 h2; omega
  | succ fuel ih =>
      intro n h1 h2
      have hne : ¬ n = 0 := by omega
      simp only [bitLenAux, if_neg hne]
      by_cases hsmall : n = 1
      · subst hsmall
        simp [bitLenAux_zero]
      · have hge : 2 ≤ n := by omega
        have hh1 : 1 ≤ n / 2 := by omega
        have hh2 : n / 2 ≤ fuel := by omega
        obtain ⟨ha, hb, hc⟩ := ih (n / 2) hh1 hh2
        set b := bitLenAux fuel (n / 2) with hbdef
        have hsub : b - 1 + 1 = b := by omega
        have hpow1 : 2 ^ b = 2 * 2 ^ (b - 1) := by
          conv_lhs => rw [← hsub]
          rw [pow_succ]
          ring
        have hpow2 : 2 ^ (b + 1) = 2 * 2 ^ b := by
          rw [pow_succ]
          ring
        refine ⟨by omega, ?_, ?_⟩
        · have hclean : b + 1 - 1 = b := by omega
          rw [hclean]
          omega
        · omega

theorem bitLen_bounds (n : Nat) (h : 1 ≤ n) :
    1 ≤ bitLen n ∧ 2 ^ (bitLen n - 1) ≤ n ∧ n < 2 ^ bitLen n :=
  bitLenAux_bounds n n h le_rfl

theorem mantExp_spec (x : ℚ) (hx : 0 < x) :
    x = (mantExp x).1 * (2 : ℚ) ^ (mantExp x).2 ∧
      (2 : ℚ) ^ (52 : ℕ) ≤ (mantExp x).1 ∧
      (mantExp x).1 < (2 : ℚ) ^ (53 : ℕ) := by
  have hnum : 0 < x.num := Rat.num_pos.mpr hx
  have hp1 : 1 ≤ x.num.natAbs := by
    have := Int.natAbs_pos.mpr (ne_of_gt hnum)
    omega
  have hq1 : 1 ≤ x.den := x.den_pos
  obtain ⟨hApos, hpl, hpu⟩ := bitLen_bounds x.num.natAbs hp1
  obtain ⟨hBpos, hql, hqu⟩ := bitLen_bounds x.den hq1
  set p := x.num.natAbs with hpdef
  set q := x.den with hqdef
  set A := bitLen p with hAdef
  set B := bitLen q with hBdef
  have hxpq : x = (p : ℚ) / (q : ℚ) := by
    have hnum' : (p : ℤ) = x.num := Int.natAbs_of_nonneg (le_of_lt hnum)
    rw [← Rat.num_div_den x, ← hnum']
    push_cast
    rfl
  have hqQ : (0 : ℚ) < (q : ℚ) := by
    exact_mod_cast Nat.lt_of_lt_of_le Nat.zero_lt_one hq1
  have h2 : (2 : ℚ) ≠ 0 := by norm_num
  -- the first candidate significand lies strictly between 2 ^ 51 and 2 ^ 53
  have key : (2 : ℚ) ^ (51 : ℕ) < x * (2 : ℚ) ^ ((B : ℤ) + 52 - A) ∧
      x * (2 : ℚ) ^ ((B : ℤ) + 52 - A) < (2 : ℚ) ^ (53 : ℕ) := by
    have hsplit : (2 : ℚ) ^ ((B : ℤ) + 52 - A) =
        ((2 ^ (B + 52) : Nat) : ℚ) / ((2 ^ A : Nat) : ℚ) := by
      rw [castPow2, castPow2, ← zpow_natCast (2 : ℚ) (B + 52),
        ← zpow_natCast (2 : ℚ) A, ← zpow_sub₀ h2]
      congr 1
    have hApow : (0 : ℚ) < ((2 ^ A : Nat) : ℚ) := by positivity
    rw [hxpq, hsplit, div_mul_div_comm]
    have hdenpos : (0 : ℚ) < (q : ℚ) * ((2 ^ A : Nat) : ℚ) := by positivity
    have eA : (2 : ℕ) ^ A = 2 ^ (A - 1) * 2 := by
      conv_lhs => rw [← Nat.sub_add_cancel hApos]
      rw [pow_succ]
    have eB : (2 : ℕ) ^ (B + 52) = 2 ^ (B - 1) * 2 ^ 53 := by
      rw [← pow_add]
      congr 1
      omega
    constructor
    · rw [lt_div_iff hdenpos]
      have hnat : 2 ^ 51 * (q * 2 ^ A) < p * 2 ^ (B + 52) := by
        have h1 : 2 ^ 51 * (q * 2 ^ A) = (q * 2 ^ (A - 1)) * 2 ^ 52 := by
          rw [eA, show (2 : ℕ) ^ 52 = 2 ^ 51 * 2 by norm_num]
          ring
        have h2' : p * 2 ^ (B + 52) = (2 ^ B * p) * 2 ^ 52 := by
          rw [pow_add]
          ring
        rw [h1, h2']
        apply Nat.mul_lt_mul_of_lt_of_le _ le_rfl (by positivity)
        exact Nat.mul_lt_mul_of_lt_of_le hqu hpl (by omega)
      calc (2 : ℚ) ^ (51 : ℕ) * ((q : ℚ) * ((2 ^ A : Nat) : ℚ))
          = ((2 ^ 51 * (q * 2 ^ A) : Nat) : ℚ) := by push_cast; ring
        _ < ((p * 2 ^ (B + 52) : Nat) : ℚ) := by exact_mod_cast hnat
        _ = (p : ℚ) * ((2 ^ (B + 52) : Nat) : ℚ) := by push_cast; ring
    · rw [div_lt_iff hdenpos]
      have hnat : p * 2 ^ (B + 52) < 2 ^ 53 * (q * 2 ^ A) := by
        have h1 : p * 2 ^ (B + 52) = (p * 2 ^ (B - 1)) * 2 ^ 53 := by
          rw [eB]
          ring
        have h2' : 2 ^ 53 * (q * 2 ^ A) = (2 ^ A * q) * 2 ^ 53 := by
          ring
        rw [h1, h2']
        apply Nat.mul_lt_mul_of_lt_of_le _ le_rfl (by positivity)
        exact Nat.mul_lt_mul_of_lt_of_le hpu hql (by omega)
      calc (p : ℚ) * ((2 ^ (B + 52) : Nat) : ℚ)
          = ((p * 2 ^ (B + 52) : Nat) : ℚ) := by push_cast; ring
        _ < ((2 ^ 53 * (q * 2 ^ A) : Nat) : ℚ) := by exact_mod_cast hnat
        _ = (2 : ℚ) ^ (53 : ℕ) * ((q : ℚ) * ((2 ^ A : Nat) : ℚ)) := by
            push_cast; ring
  -- unfold the definition
  have he1 : -((A : ℤ) - B - 52) = (B : ℤ) + 52 - A := by ring
  simp only [mantExp, ← hpdef, ← hqdef, ← hAdef, ← hBdef, pow2_eq_zpow, he1]
  set m1 := x * (2 : ℚ) ^ ((B : ℤ) + 52 - A) with hm1
  have hxm1 : ∀ e : ℤ, e = (A : ℤ) - B - 52 → x = m1 * (2 : ℚ) ^ e := by
    intro e he
    rw [hm1, mul_assoc, ← zpow_add₀ h2]
    have : (B : ℤ) + 52 - A + e = 0 := by omega
    rw [this, zpow_zero, mul_one]
  by_cases hc1 : m1 < ((2 ^ 52 : Nat) : ℚ)
  · rw [if_pos hc1]
    have hmm : x * (2 : ℚ) ^ (-((A : ℤ) - B - 52 - 1)) = m1 * 2 := by
      rw [hm1]
      rw [show -((A : ℤ) - B - 52 - 1) = ((B : ℤ) + 52 - A) + 1 by ring]
      rw [zpow_add₀ h2, zpow_one, ← mul_assoc]
    rw [castPow2] at hc1
    refine ⟨?_, ?_, ?_⟩
    · show x = x * (2 : ℚ) ^ (-((A : ℤ) - B - 52 - 1)) *
        (2 : ℚ) ^ ((A : ℤ) - B - 52 - 1)
      rw [mul_assoc, ← zpow_add₀ h2]
      rw [show -((A : ℤ) - B - 52 - 1) + ((A : ℤ) - B - 52 - 1) = 0 by ring]
      rw [zpow_zero, mul_one]
    · show (2 : ℚ) ^ (52 : ℕ) ≤ x * (2 : ℚ) ^ (-((A : ℤ) - B - 52 - 1))
      rw [hmm]
      have h51 : (2 : ℚ) ^ (52 : ℕ) = 2 ^ (51 : ℕ) * 2 := by ring
      rw [h51]
      nlinarith [key.1]
    · show x * (2 : ℚ) ^ (-((A : ℤ) - B - 52 - 1)) < (2 : ℚ) ^ (53 : ℕ)
      rw [hmm]
      have h53 : (2 : ℚ) ^ (53 : ℕ) = 2 ^ (52 : ℕ) * 2 := by ring
      rw [h53]
      nlinarith [hc1]
  · rw [if_neg hc1]
    have hc2 : ¬ ((2 ^ 53 : Nat) : ℚ) ≤ m1 := by
      rw [castPow2]
      exact not_le.mpr key.2
    rw [if_neg hc2]
    rw [castPow2] at hc1
    refine ⟨hxm1 _ rfl, not_lt.mp hc1, key.2⟩

theorem rnd53_of_split (x m : ℚ) (e : Int) (hm : x = m * (2 : ℚ) ^ e)
    (hlo : (2 : ℚ) ^ (52 : ℕ) ≤ m) (hhi : m < (2 : ℚ) ^ (53 : ℕ)) :
    rnd53 x = (roundHalfEven m : ℚ) * (2 : ℚ) ^ e := by
  have h2 : (2 : ℚ) ≠ 0 := by norm_num
  have hmpos : 0 < m := lt_of_lt_of_le (by positivity) hlo
  have hepos : (0 : ℚ) < (2 : ℚ) ^ e := zpow_pos (by norm_num) e
  have hxpos : 0 < x := by
    rw [hm]
    positivity
  obtain ⟨hs1, hs2, hs3⟩ := mantExp_spec x hxpos
  have heq : (mantExp x).1 * (2 : ℚ) ^ (mantExp x).2 = m * (2 : ℚ) ^ e := by
    rw [← hs1, hm]
  have he : (mantExp x).2 = e := by
    by_contra hne
    rcases lt_or_gt_of_ne hne with hlt | hgt
    · have hfrac : m = (mantExp x).1 * (2 : ℚ) ^ ((mantExp x).2 - e) := by
        have := heq
        field_simp at this
        rw [show (mantExp x).2 - e = (mantExp x).2 + (-e) by ring,
          zpow_add₀ h2, ← mul_assoc]
        rw [this, mul_assoc, ← zpow_add₀ h2]
        simp
      have hle : (2 : ℚ) ^ ((mantExp x).2 - e) ≤ (2 : ℚ) ^ (-1 : ℤ) :=
        zpow_le_zpow_right₀ (by norm_num) (by omega)
      have : m < (2 : ℚ) ^ (52 : ℕ) := by
        rw [hfrac]
        calc (mantExp x).1 * (2 : ℚ) ^ ((mantExp x).2 - e)
            ≤ (mantExp x).1 * (2 : ℚ) ^ (-1 : ℤ) := by
              apply mul_le_mul_of_nonneg_left hle (le_of_lt (by positivity))
          _ < (2 : ℚ) ^ (53 : ℕ) * (2 : ℚ) ^ (-1 : ℤ) := by
              apply mul_lt_mul_of_pos_right hs3 (by positivity)
          _ = (2 : ℚ) ^ (52 : ℕ) := by
              rw [← zpow_natCast (2 : ℚ) 53, ← zpow_add₀ h2, ← zpow_natCast (2 : ℚ) 52]
              norm_num
      exact absurd hlo (not_le.mpr this)
    · have hfrac : (mantExp x).1 = m * (2 : ℚ) ^ (e - (mantExp x).2) := by
        rw [show e - (mantExp x).2 = e + (-(mantExp x).2) by ring,
          zpow_add₀ h2, ← mul_assoc]
        rw [← heq, mul_assoc, ← zpow_add₀ h2]
        simp
      have hle : (2 : ℚ) ^ (e - (mantExp x).2) ≤ (2 : ℚ) ^ (-1 : ℤ) :=
        zpow_le_zpow_right₀ (by norm_num) (by omega)
      have hcon : (mantExp x).1 < (2 : ℚ) ^ (52 : ℕ) := by
        rw [hfrac]
        calc m * (2 : ℚ) ^ (e - (mantExp x).2)
            ≤ m * (2 : ℚ) ^ (-1 : ℤ) :=
              mul_le_mul_of_nonneg_left hle (le_of_lt hmpos)
          _ < (2 : ℚ) ^ (53 : ℕ) * (2 : ℚ) ^ (-1 : ℤ) :=
              mul_lt_mul_of_pos_right hhi (by positivity)
          _ = (2 : ℚ) ^ (52 : ℕ) := by
              rw [← zpow_natCast (2 : ℚ) 53, ← zpow_add₀ h2,
                ← zpow_natCast (2 : ℚ) 52]
              norm_num
      exact absurd hs2 (not_le.mpr hcon)
  have hmeq : (mantExp x).1 = m := by
    rw [he] at heq
    exact mul_right_cancel₀ (zpow_ne_zero e h2) heq
  rw [rnd53, if_neg (ne_of_gt hxpos), if_neg (not_lt.mpr (le_of_lt hxpos)),
    rnd53pos, pow2_eq_zpow, hmeq, he]

theorem roundHalfEven_low (x : ℚ) (f : Int) (h1 : (f : ℚ) ≤ x)
    (h2 : x < f + 1) (hc : x - f < 1 / 2) : roundHalfEven x = f := by
  have hf : ⌊x⌋ = f := Int.floor_eq_iff.mpr ⟨h1, h2⟩
  simp only [roundHalfEven, hf, if_pos hc]

theorem roundHalfEven_high (x : ℚ) (f : Int) (h1 : (f : ℚ) ≤ x)
    (h2 : x < f + 1) (hc : 1 / 2 < x - f) : roundHalfEven x = f + 1 := by
  have hf : ⌊x⌋ = f := Int.floor_eq_iff.mpr ⟨h1, h2⟩
  simp only [roundHalfEven, hf, if_neg (not_lt.mpr (le_of_lt hc)), if_pos hc]

theorem roundHalfEven_tie_even (x : ℚ) (f : Int) (h1 : (f : ℚ) ≤ x)
    (h2 : x < f + 1) (hc : x - f = 1 / 2) (hev : f % 2 = 0) :
    roundHalfEven x = f := by
  have hf : ⌊x⌋ = f := Int.floor_eq_iff.mpr ⟨h1, h2⟩
  simp only [roundHalfEven, hf, hc]
  norm_num [hev]

theorem roundHalfEven_tie_odd (x : ℚ) (f : Int) (h1 : (f : ℚ) ≤ x)
    (h2 : x < f + 1) (hc : x - f = 1 / 2) (hodd : f % 2 = 1) :
    roundHalfEven x = f + 1 := by
  have hf : ⌊x⌋ = f := Int.floor_eq_iff.mpr ⟨h1, h2⟩
  simp only [roundHalfEven, hf, hc]
  norm_num [hodd]

theorem roundHalfEven_intCast (k : Int) : roundHalfEven (k : ℚ) = k := by
  norm_num [roundHalfEven, Int.floor_intCast]

/-- A value that is exactly representable in binary64 is returned
unchanged by the rounding. -/
theorem rnd53_exact (x : ℚ) (k : Int) (e : Int) (hm : x = (k : ℚ) * (2 : ℚ) ^ e)
    (hlo : (2 : ℚ) ^ (52 : ℕ) ≤ (k : ℚ)) (hhi : (k : ℚ) < (2 : ℚ) ^ (53 : ℕ)) :
    rnd53 x = x := by
  rw [rnd53_of_split x (k : ℚ) e hm hlo hhi, roundHalfEven_intCast, ← hm]

theorem pyShare_6_10_5 : pyShare 6 10 5 = 3 := by
  have e1 : rnd53 ((6 : ℚ) / 10) =
      (5404319552844595 : ℚ) * (2 : ℚ) ^ (-53 : Int) := by
    rw [rnd53_of_split _ (27021597764222976 / 5 : ℚ) (-53) (by norm_num)
        (by norm_num) (by norm_num),
      roundHalfEven_low _ 5404319552844595 (by norm_num) (by norm_num)
        (by norm_num)]
    norm_num
  have e2 : rnd53 ((5 : Nat) : ℚ) = 5 := by
    rw [show ((5 : Nat) : ℚ) = (5 : ℚ) by norm_num]
    exact rnd53_exact _ 5629499534213120 (-50) (by norm_num) (by norm_num)
      (by norm_num)
  have e3 : rnd53 ((5404319552844595 : ℚ) * (2 : ℚ) ^ (-53 : Int) * 5) =
      (3 : ℚ) := by
    rw [rnd53_of_split _ (27021597764222975 / 4 : ℚ) (-51) (by norm_num)
        (by norm_num) (by norm_num),
      roundHalfEven_high _ 6755399441055743 (by norm_num) (by norm_num)
        (by norm_num)]
    norm_num
  unfold pyShare
  rw [show ((6 : Nat) : ℚ) / ((10 : Nat) : ℚ) = (6 : ℚ) / 10 by norm_num,
    e1, e2, e3, show (3 : ℚ) = ((3 : Int) : ℚ) by norm_num, Int.floor_intCast]
  rfl

theorem pyShare_4_10_5 : pyShare 4 10 5 = 2 := by
  have e1 : rnd53 ((4 : ℚ) / 10) =
      (7205759403792794 : ℚ) * (2 : ℚ) ^ (-54 : Int) := by
    rw [rnd53_of_split _ (36028797018963968 / 5 : ℚ) (-54) (by norm_num)
        (by norm_num) (by norm_num),
      roundHalfEven_high _ 7205759403792793 (by norm_num) (by norm_num)
        (by norm_num)]
    norm_num
  have e2 : rnd53 ((5 : Nat) : ℚ) = 5 := by
    rw [show ((5 : Nat) : ℚ) = (5 : ℚ) by norm_num]
    exact rnd53_exact _ 5629499534213120 (-50) (by norm_num) (by norm_num)
      (by norm_num)
  have e3 : rnd53 ((7205759403792794 : ℚ) * (2 : ℚ) ^ (-54 : Int) * 5) =
      (2 : ℚ) := by
    rw [rnd53_of_split _ (18014398509481985 / 4 : ℚ) (-51) (by norm_num)
        (by norm_num) (by norm_num),
      roundHalfEven_low _ 4503599627370496 (by norm_num) (by norm_num)
        (by norm_num)]
    norm_num
  unfold pyShare
  rw [show ((4 : Nat) : ℚ) / ((10 : Nat) : ℚ) = (4 : ℚ) / 10 by norm_num,
    e1, e2, e3, show (2 : ℚ) = ((2 : Int) : ℚ) by norm_num, Int.floor_intCast]
  rfl

theorem pyShare_2_98_49 : pyShare 2 98 49 = 0 := by
  have e1 : rnd53 ((2 : ℚ) / 98) =
      (5882252574524729 : ℚ) * (2 : ℚ) ^ (-58 : Int) := by
    rw [rnd53_of_split _ (288230376151711744 / 49 : ℚ) (-58) (by norm_num)
        (by norm_num) (by norm_num),
      roundHalfEven_low _ 5882252574524729 (by norm_num) (by norm_num)
        (by norm_num)]
    norm_num
  have e2 : rnd53 ((49 : Nat) : ℚ) = 49 := by
    rw [show ((49 : Nat) : ℚ) = (49 : ℚ) by norm_num]
    exact rnd53_exact _ 6896136929411072 (-47) (by norm_num) (by norm_num)
      (by norm_num)
  have e3 : rnd53 ((5882252574524729 : ℚ) * (2 : ℚ) ^ (-58 : Int) * 49) =
      (9007199254740991 : ℚ) * (2 : ℚ) ^ (-53 : Int) := by
    rw [rnd53_of_split _ (288230376151711721 / 32 : ℚ) (-53) (by norm_num)
        (by norm_num) (by norm_num),
      roundHalfEven_low _ 9007199254740991 (by norm_num) (by norm_num)
        (by norm_num)]
    norm_num
  unfold pyShare
  rw [show ((2 : Nat) : ℚ) / ((98 : Nat) : ℚ) = (2 : ℚ) / 98 by norm_num,
    e1, e2, e3, Int.floor_eq_iff.mpr
      (⟨by norm_num, by norm_num⟩ :
        ((0 : Int) : ℚ) ≤ _ ∧ _ < ((0 : Int) : ℚ) + 1)]
  rfl

theorem pyShare_huge : pyShare (2 ^ 54 + 7) (2 ^ 54 + 7) (2 ^ 54 + 6) =
    2 ^ 54 + 8 := by
  have e1 : rnd53 (((2 ^ 54 + 7 : Nat) : ℚ) / ((2 ^ 54 + 7 : Nat) : ℚ)) = 1 := by
    rw [div_self (by norm_num)]
    exact rnd53_exact _ 4503599627370496 (-52) (by norm_num) (by norm_num)
      (by norm_num)
  have e2 : rnd53 ((2 ^ 54 + 6 : Nat) : ℚ) =
      (4503599627370498 : ℚ) * (2 : ℚ) ^ (2 : Int) := by
    rw [show ((2 ^ 54 + 6 : Nat) : ℚ) = (18014398509481990 : ℚ) by norm_num,
      rnd53_of_split _ (9007199254740995 / 2 : ℚ) (2) (by norm_num)
        (by norm_num) (by norm_num),
      roundHalfEven_tie_odd _ 4503599627370497 (by norm_num) (by norm_num)
        (by norm_num) (by norm_num)]
    norm_num
  have e3 : rnd53 ((1 : ℚ) * ((4503599627370498 : ℚ) * (2 : ℚ) ^ (2 : Int))) =
      (4503599627370498 : ℚ) * (2 : ℚ) ^ (2 : Int) := by
    rw [one_mul]
    exact rnd53_exact _ 4503599627370498 2 (by norm_num) (by norm_num)
      (by norm_num)
  unfold pyShare
  rw [e1, e2, e3, show (4503599627370498 : ℚ) * (2 : ℚ) ^ (2 : Int) =
      ((18014398509481992 : Int) : ℚ) by norm_num, Int.floor_intCast]
  rfl

theorem pyShare_2_3_2 : pyShare 2 3 2 = 1 := by
  have e1 : rnd53 ((2 : ℚ) / 3) =
      (6004799503160661 : ℚ) * (2 : ℚ) ^ (-53 : Int) := by
    rw [rnd53_of_split _ (18014398509481984 / 3 : ℚ) (-53) (by norm_num)
        (by norm_num) (by norm_num),
      roundHalfEven_low _ 6004799503160661 (by norm_num) (by norm_num)
        (by norm_num)]
    norm_num
  have e2 : rnd53 ((2 : Nat) : ℚ) = 2 := by
    rw [show ((2 : Nat) : ℚ) = (2 : ℚ) by norm_num]
    exact rnd53_exact _ 4503599627370496 (-51) (by norm_num) (by norm_num)
      (by norm_num)
  have e3 : rnd53 ((6004799503160661 : ℚ) * (2 : ℚ) ^ (-53 : Int) * 2) =
      (6004799503160661 : ℚ) * (2 : ℚ) ^ (-52 : Int) := by
    have harg : (6004799503160661 : ℚ) * (2 : ℚ) ^ (-53 : Int) * 2 =
        (6004799503160661 : ℚ) * (2 : ℚ) ^ (-52 : Int) := by norm_num
    rw [harg]
    exact rnd53_exact _ 6004799503160661 (-52) (by norm_num) (by norm_num)
      (by norm_num)
  unfold pyShare
  rw [show ((2 : Nat) : ℚ) / ((3 : Nat) : ℚ) = (2 : ℚ) / 3 by norm_num,
    e1, e2, e3, Int.floor_eq_iff.mpr
      (⟨by norm_num, by norm_num⟩ :
        ((1 : Int) : ℚ) ≤ _ ∧ _ < ((1 : Int) : ℚ) + 1)]
  rfl

theorem pyShare_1_3_2 : pyShare 1 3 2 = 0 := by
  have e1 : rnd53 ((1 : ℚ) / 3) =
      (6004799503160661 : ℚ) * (2 : ℚ) ^ (-54 : Int) := by
    rw [rnd53_of_split _ (18014398509481984 / 3 : ℚ) (-54) (by norm_num)
        (by norm_num) (by norm_num),
      roundHalfEven_low _ 6004799503160661 (by norm_num) (by norm_num)
        (by norm_num)]
    norm_num
  have e2 : rnd53 ((2 : Nat) : ℚ) = 2 := by
    rw [show ((2 : Nat) : ℚ) = (2 : ℚ) by norm_num]
    exact rnd53_exact _ 4503599627370496 (-51) (by norm_num) (by norm_num)
      (by norm_num)
  have e3 : rnd53 ((6004799503160661 : ℚ) * (2 : ℚ) ^ (-54 : Int) * 2) =
      (6004799503160661 : ℚ) * (2 : ℚ) ^ (-53 : Int) := by
    have harg : (6004799503160661 : ℚ) * (2 : ℚ) ^ (-54 : Int) * 2 =
        (6004799503160661 : ℚ) * (2 : ℚ) ^ (-53 : Int) := by norm_num
    rw [harg]
    exact rnd53_exact _ 6004799503160661 (-53) (by norm_num) (by norm_num)
      (by norm_num)
  unfold pyShare
  rw [show ((1 : Nat) : ℚ) / ((3 : Nat) : ℚ) = (1 : ℚ) / 3 by norm_num,
    e1, e2, e3, Int.floor_eq_iff.mpr
      (⟨by norm_num, by norm_num⟩ :
        ((0 : Int) : ℚ) ≤ _ ∧ _ < ((0 : Int) : ℚ) + 1)]
  rfl

/-- C9: for every DifferenceSet and every sample size at least the total
number of images, `prepare_sample` returns its input unchanged (identity
case, no randomization: neither `pick` nor `sampleFn` is consulted). -/
theorem prepare_sample_identity (pick : Nat → Nat)
    (sampleFn : List ImageInfo → Nat → List ImageInfo)
    (diffs : List (Nat × List ImageInfo)) (s : Nat)
    (h : total_diffs diffs ≤ s) :
    prepare_sample pick sampleFn diffs s = diffs := by
  unfold prepare_sample
  rw [if_pos h]

/-- Witness for the C9 theorem: two datasets with three images in total,
sample size 3. -/
theorem prepare_sample_identity_witness :
    total_diffs [(1, [(⟨10, "a"⟩ : ImageInfo), ⟨11, "b"⟩]), (2, [⟨12, "c"⟩])] ≤ 3 ∧
      prepare_sample (fun _ => 0) (fun l k => l.take k)
        [(1, [(⟨10, "a"⟩ : ImageInfo), ⟨11, "b"⟩]), (2, [⟨12, "c"⟩])] 3 =
        [(1, [(⟨10, "a"⟩ : ImageInfo), ⟨11, "b"⟩]), (2, [⟨12, "c"⟩])] :=
  ⟨by decide, prepare_sample_identity (fun _ => 0) (fun l k => l.take k)
    [(1, [(⟨10, "a"⟩ : ImageInfo), ⟨11, "b"⟩]), (2, [⟨12, "c"⟩])] 3 (by decide)⟩

/-- Counterexample to C3: the preliminary share of `prepare_sample` is
the binary64 value `int((len / total) * size)` (`pyShare`), which does
not always equal the exact integer `floor(size * count / total)`: for
difference sizes `{2, 96}` and size `49 < 98`, dataset 1's preliminary
share is `0` while the exact floor `49 * 2 / 98 = 1` (the double nearest
to `2 / 98` is slightly below it, and the product rounds to just under
`1`). -/
theorem prepare_share_not_exact_floor :
    49 < total_diffs
        [(1, List.replicate 2 (⟨100, "a"⟩ : ImageInfo)),
          (2, List.replicate 96 (⟨200, "b"⟩ : ImageInfo))] ∧
      pyShare
        (lenOf [(1, List.replicate 2 (⟨100, "a"⟩ : ImageInfo)),
          (2, List.replicate 96 (⟨200, "b"⟩ : ImageInfo))] 1)
        (total_diffs [(1, List.replicate 2 (⟨100, "a"⟩ : ImageInfo)),
          (2, List.replicate 96 (⟨200, "b"⟩ : ImageInfo))]) 49 = 0 ∧
      49 * (lenOf [(1, List.replicate 2 (⟨100, "a"⟩ : ImageInfo)),
          (2, List.replicate 96 (⟨200, "b"⟩ : ImageInfo))] 1) /
        (total_diffs [(1, List.replicate 2 (⟨100, "a"⟩ : ImageInfo)),
          (2, List.replicate 96 (⟨200, "b"⟩ : ImageInfo))]) = 1 := by
  have hlen : lenOf [(1, List.replicate 2 (⟨100, "a"⟩ : ImageInfo)),
      (2, List.replicate 96 (⟨200, "b"⟩ : ImageInfo))] 1 = 2 := by
    simp [lenOf, dictGet]
  have htot : total_diffs [(1, List.replicate 2 (⟨100, "a"⟩ : ImageInfo)),
      (2, List.replicate 96 (⟨200, "b"⟩ : ImageInfo))] = 98 := by
    simp [total_diffs]
  rw [hlen, htot]
  exact ⟨by norm_num, pyShare_2_98_49, by norm_num⟩

/-- C3 as amended: the preliminary shares are the binary64 computation
`int((count / total) * size)`, not exact integer arithmetic; in the
claimed `{6, 4}`-with-size-5 scenario the two computations agree, giving
shares exactly `{3, 2}` (the exact floors `5 * 6 / 10` and `5 * 4 / 10`)
with remainder `0`, so `prepare_sample` deterministically selects 3 and 2
images. -/
theorem prepare_sample_scenario_6_4 :
    pyShare 6 10 5 = 5 * 6 / 10 ∧ pyShare 4 10 5 = 5 * 4 / 10 ∧
      (5 : Int) - (pyShare 6 10 5 + pyShare 4 10 5 : Nat) = 0 ∧
      prepare_sample (fun _ => 0) (fun l k => l.take k)
        [(1, List.replicate 6 (⟨100, "a"⟩ : ImageInfo)),
          (2, List.replicate 4 (⟨200, "b"⟩ : ImageInfo))] 5 =
        [(1, List.replicate 3 (⟨100, "a"⟩ : ImageInfo)),
          (2, List.replicate 2 (⟨200, "b"⟩ : ImageInfo))] := by
  refine ⟨by rw [pyShare_6_10_5], by rw [pyShare_4_10_5],
    by rw [pyShare_6_10_5, pyShare_4_10_5]; norm_num, ?_⟩
  have htot : total_diffs
      [(1, List.replicate 6 (⟨100, "a"⟩ : ImageInfo)),
        (2, List.replicate 4 (⟨200, "b"⟩ : ImageInfo))] = 10 := by
    simp [total_diffs]
  have hrem : init_rem
      [(1, List.replicate 6 (⟨100, "a"⟩ : ImageInfo)),
        (2, List.replicate 4 (⟨200, "b"⟩ : ImageInfo))] 5 = 0 := by
    simp only [init_rem, htot, List.map_cons, List.map_nil,
      List.length_replicate, pyShare_6_10_5, pyShare_4_10_5]
    norm_num
  have hfin1 : final_shares (fun _ => 0)
      [(1, List.replicate 6 (⟨100, "a"⟩ : ImageInfo)),
        (2, List.replicate 4 (⟨200, "b"⟩ : ImageInfo))] 5 1 = 3 := by
    rw [final_shares, if_neg (by rw [hrem]; norm_num)]
    simp only [init_shares, lenOf, dictGet, htot]
    norm_num [pyShare_6_10_5]
  have hfin2 : final_shares (fun _ => 0)
      [(1, List.replicate 6 (⟨100, "a"⟩ : ImageInfo)),
        (2, List.replicate 4 (⟨200, "b"⟩ : ImageInfo))] 5 2 = 2 := by
    rw [final_shares, if_neg (by rw [hrem]; norm_num)]
    simp only [init_shares, lenOf, dictGet, htot]
    norm_num [pyShare_4_10_5]
  unfold prepare_sample
  rw [htot, if_neg (by norm_num)]
  simp only [List.filterMap_cons, List.filterMap_nil, hfin1, hfin2]
  norm_num [dictGet, List.take_replicate]

theorem getD_mem_of_lt (l : List Nat) (n : Nat) (d : Nat)
    (h : n < l.length) : l.getD n d ∈ l := by
  rw [List.getD_eq_getElem _ _ h]
  exact List.getElem_mem _

theorem dictGet_self_of_nodup {α : Type} (m : List (Nat × α))
    (hnd : (m.map Prod.fst).Nodup) (p : Nat × α) (hp : p ∈ m) :
    dictGet m p.1 = some p.2 := by
  induction m with
  | nil => simp at hp
  | cons q rest ih =>
      obtain ⟨k', v'⟩ := q
      simp only [List.map_cons, List.nodup_cons] at hnd
      rcases List.mem_cons.mp hp with h | h
      · rw [← h]
        simp [dictGet]
      · have hne : k' ≠ p.1 := by
          intro he
          exact hnd.1 (he ▸ List.mem_map_of_mem Prod.fst h)
        simp only [dictGet, if_neg hne]
        exact ih hnd.2 h

theorem update1_sum (keys : List Nat) (sh : Nat → Nat) (ds : Nat)
    (hnd : keys.Nodup) (hmem : ds ∈ keys) :
    (keys.map (update1 sh ds)).sum = (keys.map sh).sum + 1 := by
  induction keys with
  | nil => simp at hmem
  | cons k rest ih =>
      simp only [List.nodup_cons] at hnd
      rcases List.mem_cons.mp hmem with h | h
      · have hrest : rest.map (update1 sh ds) = rest.map sh := by
          apply List.map_congr_left
          intro a ha
          have hane : a ≠ ds := fun he => hnd.1 (h ▸ he ▸ ha)
          simp [update1, hane]
        have hupd : update1 sh ds k = sh k + 1 := by
          simp [update1, h.symm]
        simp only [List.map_cons, List.sum_cons, hrest, hupd]
        omega
      · have hkne : k ≠ ds := fun he => hnd.1 (he ▸ h)
        simp only [List.map_cons, List.sum_cons, ih hnd.2 h, update1,
          if_neg hkne]
        omega

theorem pyShare_zero (t s : Nat) : pyShare 0 t s = 0 := by
  unfold pyShare
  rw [show ((0 : Nat) : ℚ) / ((t : Nat) : ℚ) = 0 by simp]
  rw [show rnd53 0 = 0 by rw [rnd53, if_pos rfl]]
  rw [zero_mul, show rnd53 0 = 0 by rw [rnd53, if_pos rfl]]
  simp

/-- Invariant preservation for the remainder-distribution loop: starting
from shares below capacity whose total is `target - rem`, with all spare
capacity listed in `space`, the loop ends with shares summing exactly to
`target` and still below capacity, for an arbitrary pick stream. -/
theorem dist_loop_spec (len_ : Nat → Nat) (pick : Nat → Nat)
    (keys : List Nat) (hknd : keys.Nodup) (target : Nat)
    (htlt : target < (keys.map len_).sum) :
    ∀ n step sh space rem, rem + space.length = n →
      (∀ k ∈ space, k ∈ keys) →
      (∀ k ∈ keys, k ∉ space → sh k = len_ k) →
      (∀ k, sh k ≤ len_ k) →
      (keys.map sh).sum + rem = target →
      ((keys.map (dist_loop len_ pick step sh space rem)).sum = target ∧
        ∀ k, dist_loop len_ pick step sh space rem k ≤ len_ k) := by
  intro n
  induction n using Nat.strong_induction_on with
  | _ n ih =>
    intro step sh space rem hn hsub hfull hle hsum
    by_cases h0 : rem = 0
    · subst h0
      rw [dist_loop.eq_def, if_pos rfl]
      exact ⟨by omega, hle⟩
    · rw [dist_loop.eq_def, if_neg h0]
      cases hspace : space with
      | nil =>
          exfalso
          subst hspace
          have hall : keys.map sh = keys.map len_ := by
            apply List.map_congr_left
            intro k hk
            exact hfull k hk (by simp)
          rw [hall] at hsum
          omega
      | cons x xs =>
          subst hspace
          simp only []
          by_cases hcap :
              len_ ((x :: xs).getD (pick step % (x :: xs).length) 0) >
                sh ((x :: xs).getD (pick step % (x :: xs).length) 0)
          · rw [if_pos hcap]
            have hdsmem : (x :: xs).getD (pick step % (x :: xs).length) 0 ∈
                x :: xs :=
              getD_mem_of_lt _ _ _ (Nat.mod_lt _ (by simp))
            have hdskey := hsub _ hdsmem
            apply ih (rem - 1 + (x :: xs).length) (by omega)
              (step + 1) _ (x :: xs) (rem - 1) rfl hsub
            · intro k hk hknot
              have hkne : k ≠ (x :: xs).getD (pick step % (x :: xs).length) 0 :=
                fun he => hknot (he ▸ hdsmem)
              simp only [update1, if_neg hkne]
              exact hfull k hk hknot
            · intro k
              by_cases hke : k = (x :: xs).getD (pick step % (x :: xs).length) 0
              · have hupd : update1 sh ((x :: xs).getD
                    (pick step % (x :: xs).length) 0) k = sh k + 1 := by
                  simp [update1, hke]
                rw [hupd, hke]
                omega
              · simp only [update1, if_neg hke]
                exact hle k
            · rw [update1_sum keys sh _ hknd hdskey]
              omega
          · rw [if_neg hcap]
            have hdsmem : (x :: xs).getD (pick step % (x :: xs).length) 0 ∈
                x :: xs :=
              getD_mem_of_lt _ _ _ (Nat.mod_lt _ (by simp))
            have herase := List.length_erase_of_mem hdsmem
            apply ih (rem + ((x :: xs).erase
                ((x :: xs).getD (pick step % (x :: xs).length) 0)).length)
              (by rw [herase]; simp only [List.length_cons] at hn ⊢; omega)
              (step + 1) sh _ rem rfl
            · intro k hk
              exact hsub k (List.erase_subset _ _ hk)
            · intro k hk hknot
              by_cases hkin : k ∈ x :: xs
              · have hke : k = (x :: xs).getD (pick step % (x :: xs).length) 0 := by
                  by_contra hne
                  exact hknot ((List.mem_erase_of_ne hne).mpr hkin)
                rw [hke]
                have h1 := hle ((x :: xs).getD (pick step % (x :: xs).length) 0)
                omega
              · exact hfull k hk hkin
            · exact hle
            · exact hsum

theorem sampled_sum (sampleFn : List ImageInfo → Nat → List ImageInfo)
    (hsample : ∀ l k, k ≤ l.length → (sampleFn l k).length = k)
    (dict : List (Nat × List ImageInfo)) (l : List (Nat × List ImageInfo))
    (sh : Nat → Nat) (hle : ∀ k, sh k ≤ lenOf dict k) :
    ((l.filterMap (fun p =>
        if sh p.1 > 0 then
          some (p.1, sampleFn ((dictGet dict p.1).getD []) (sh p.1))
        else none)).map (fun p => p.2.length)).sum =
      (l.map (fun p => sh p.1)).sum := by
  induction l with
  | nil => simp
  | cons p rest ih =>
      have hplen : sh p.1 ≤ ((dictGet dict p.1).getD []).length := hle p.1
      by_cases hpos : sh p.1 > 0
      · rw [List.filterMap_cons, if_pos hpos]
        simp only [List.map_cons, List.sum_cons]
        rw [hsample _ _ hplen, ih]
      · rw [List.filterMap_cons, if_neg hpos]
        simp only [List.map_cons, List.sum_cons]
        rw [ih]
        omega

theorem sampled_le (sampleFn : List ImageInfo → Nat → List ImageInfo)
    (hsample : ∀ l k, k ≤ l.length → (sampleFn l k).length = k)
    (dict : List (Nat × List ImageInfo)) (l : List (Nat × List ImageInfo))
    (sh : Nat → Nat) (hle : ∀ k, sh k ≤ lenOf dict k) :
    ∀ q ∈ (l.filterMap (fun p =>
        if sh p.1 > 0 then
          some (p.1, sampleFn ((dictGet dict p.1).getD []) (sh p.1))
        else none)), q.2.length ≤ lenOf dict q.1 := by
  intro q hq
  rcases List.mem_filterMap.mp hq with ⟨p, hp, hf⟩
  by_cases hpos : sh p.1 > 0
  · rw [if_pos hpos] at hf
    obtain rfl := Option.some_inj.mp hf
    have : (sampleFn ((dictGet dict p.1).getD []) (sh p.1)).length = sh p.1 :=
      hsample _ _ (hle p.1)
    simpa [this] using hle p.1
  · rw [if_neg hpos] at hf
    exact absurd hf (by simp)

theorem init_rem_cast (diffs : List (Nat × List ImageInfo)) (s : Nat) :
    init_rem diffs s = (s : Int) -
      ((diffs.map
        (fun p => pyShare p.2.length (total_diffs diffs) s)).sum : Nat) := by
  rw [init_rem]
  congr 1
  rw [Nat.cast_list_sum, List.map_map]
  rfl

/-- C4 as amended: for a DifferenceSet with distinct dataset IDs and any
sample size strictly below the total, provided the binary64 preliminary
shares do not over-allocate — each dataset's share at most its
difference count and the shares summing to at most the sample size,
which holds for all realistically sized inputs and can only fail when
counts reach the order of `2 ^ 52` — `prepare_sample` returns selections
whose per-dataset counts sum to exactly the sample size and never exceed
the dataset's difference count; the remainder loop always terminates
(the model's loop is a total function). -/
theorem prepare_sample_count_conservation (pick : Nat → Nat)
    (sampleFn : List ImageInfo → Nat → List ImageInfo)
    (diffs : List (Nat × List ImageInfo)) (s : Nat)
    (hnd : (diffs.map Prod.fst).Nodup)
    (hsample : ∀ l k, k ≤ l.length → (sampleFn l k).length = k)
    (hlt : s < total_diffs diffs)
    (hshle : ∀ p ∈ diffs,
      pyShare p.2.length (total_diffs diffs) s ≤ p.2.length)
    (hshsum : (diffs.map
      (fun p => pyShare p.2.length (total_diffs diffs) s)).sum ≤ s) :
    ((prepare_sample pick sampleFn diffs s).map
        (fun p => p.2.length)).sum = s ∧
      ∀ p ∈ prepare_sample pick sampleFn diffs s,
        p.2.length ≤ lenOf diffs p.1 := by
  have hkey_len : ∀ p ∈ diffs, lenOf diffs p.1 = p.2.length := by
    intro p hp
    rw [lenOf, dictGet_self_of_nodup diffs hnd p hp]
    rfl
  have hsh0_le : ∀ k, init_shares diffs s k ≤ lenOf diffs k := by
    intro k
    cases hdg : dictGet diffs k with
    | none =>
        rw [init_shares, lenOf, hdg]
        simp [pyShare_zero]
    | some v =>
        have hkmem := dictGet_some_mem _ _ _ hdg
        rcases List.mem_map.mp hkmem with ⟨p, hp, hpk⟩
        have h1 : lenOf diffs k = p.2.length := by
          rw [← hpk]
          exact hkey_len p hp
        rw [init_shares, h1]
        exact hshle p hp
  have hsum0 : ((diffs.map Prod.fst).map (init_shares diffs s)).sum =
      (diffs.map (fun p => pyShare p.2.length (total_diffs diffs) s)).sum := by
    rw [List.map_map]
    apply congrArg List.sum
    apply List.map_congr_left
    intro p hp
    show init_shares diffs s p.1 = _
    rw [init_shares, hkey_len p hp]
  have hlen_total : ((diffs.map Prod.fst).map (lenOf diffs)).sum =
      total_diffs diffs := by
    rw [List.map_map, total_diffs]
    apply congrArg List.sum
    apply List.map_congr_left
    intro p hp
    exact hkey_len p hp
  have hfin : (((diffs.map Prod.fst)).map (final_shares pick diffs s)).sum = s ∧
      ∀ k, final_shares pick diffs s k ≤ lenOf diffs k := by
    rw [final_shares]
    by_cases hr : 0 < init_rem diffs s
    · rw [if_pos hr]
      apply dist_loop_spec (lenOf diffs) pick (diffs.map Prod.fst) hnd s
        (by rw [hlen_total]; exact hlt) _ 0 _ _ _ rfl
      · intro k hk
        rw [space0] at hk
        rcases List.mem_map.mp hk with ⟨p, hp, hpk⟩
        exact hpk ▸ List.mem_map_of_mem Prod.fst (List.mem_of_mem_filter hp)
      · intro k hk hknot
        rcases List.mem_map.mp hk with ⟨p, hp, rfl⟩
        have hngt : ¬ p.2.length > init_shares diffs s p.1 := by
          intro hgt
          apply hknot
          rw [space0]
          exact List.mem_map_of_mem Prod.fst
            (List.mem_filter_of_mem hp (by simp [hgt]))
        have h1 := hsh0_le p.1
        rw [hkey_len p hp] at h1 ⊢
        omega
      · exact hsh0_le
      · rw [hsum0]
        rw [init_rem_cast] at hr ⊢
        omega
    · rw [if_neg hr]
      refine ⟨?_, hsh0_le⟩
      rw [hsum0]
      rw [init_rem_cast] at hr
      omega
  rw [prepare_sample, if_neg (by omega)]
  constructor
  · rw [sampled_sum sampleFn hsample diffs diffs (final_shares pick diffs s)
      hfin.2]
    have hmm2 : (diffs.map (fun p => final_shares pick diffs s p.1)).sum =
        ((diffs.map Prod.fst).map (final_shares pick diffs s)).sum := by
      rw [List.map_map]
      rfl
    rw [hmm2, hfin.1]
  · exact sampled_le sampleFn hsample diffs diffs (final_shares pick diffs s)
      hfin.2

/-- Witness for the C4 theorem: difference sets of sizes `{2, 1}`,
sample size 2 (binary64 shares are 1 and 0, remainder 1 distributed by
the loop), with `take` as the selection function. -/
theorem prepare_sample_count_conservation_witness :
    ((prepare_sample (fun _ => 0) (fun l k => l.take k)
        [(1, [(⟨10, "a"⟩ : ImageInfo), ⟨11, "b"⟩]), (2, [⟨12, "c"⟩])] 2).map
          (fun p => p.2.length)).sum = 2 ∧
      ∀ p ∈ prepare_sample (fun _ => 0) (fun l k => l.take k)
          [(1, [(⟨10, "a"⟩ : ImageInfo), ⟨11, "b"⟩]), (2, [⟨12, "c"⟩])] 2,
        p.2.length ≤
          lenOf [(1, [(⟨10, "a"⟩ : ImageInfo), ⟨11, "b"⟩]), (2, [⟨12, "c"⟩])]
            p.1 :=
  prepare_sample_count_conservation (fun _ => 0) (fun l k => l.take k)
    [(1, [(⟨10, "a"⟩ : ImageInfo), ⟨11, "b"⟩]), (2, [⟨12, "c"⟩])] 2
    (by decide)
    (by
      intro l k hk
      simp only [List.length_take]
      omega)
    (by decide)
    (by
      have htot : total_diffs
          [(1, [(⟨10, "a"⟩ : ImageInfo), ⟨11, "b"⟩]), (2, [⟨12, "c"⟩])] = 3 := by
        decide
      intro p hp
      rw [htot]
      rcases List.mem_cons.mp hp with h | h
      · subst h
        norm_num [pyShare_2_3_2]
      · rcases List.mem_cons.mp h with h2 | h2
        · subst h2
          norm_num [pyShare_1_3_2]
        · simp at h2)
    (by
      have htot : total_diffs
          [(1, [(⟨10, "a"⟩ : ImageInfo), ⟨11, "b"⟩]), (2, [⟨12, "c"⟩])] = 3 := by
        decide
      rw [htot]
      norm_num [pyShare_2_3_2, pyShare_1_3_2])

theorem total_diffs_singleton (k : Nat) (imgs : List ImageInfo) :
    total_diffs [(k, imgs)] = imgs.length := by
  simp [total_diffs]

theorem lenOf_singleton (k : Nat) (imgs : List ImageInfo) :
    lenOf [(k, imgs)] k = imgs.length := by
  simp [lenOf, dictGet]

theorem init_rem_singleton (k : Nat) (imgs : List ImageInfo) (s : Nat) :
    init_rem [(k, imgs)] s =
      (s : Int) - (pyShare imgs.length (total_diffs [(k, imgs)]) s : Nat) := by
  simp [init_rem]

theorem prepare_sample_singleton (pick : Nat → Nat)
    (sampleFn : List ImageInfo → Nat → List ImageInfo) (k : Nat)
    (imgs : List ImageInfo) (s : Nat)
    (hs : ¬ s ≥ total_diffs [(k, imgs)]) :
    prepare_sample pick sampleFn [(k, imgs)] s =
      if final_shares pick [(k, imgs)] s k > 0 then
        [(k, sampleFn imgs (final_shares pick [(k, imgs)] s k))]
      else [] := by
  rw [prepare_sample, if_neg hs]
  by_cases h : final_shares pick [(k, imgs)] s k > 0
  · rw [if_pos h]
    simp [dictGet, h]
  · rw [if_neg h]
    simp [dictGet, h]

theorem prepare_sample_singleton_sum (pick : Nat → Nat)
    (sampleFn : List ImageInfo → Nat → List ImageInfo) (k : Nat)
    (imgs : List ImageInfo) (s : Nat)
    (hs : ¬ s ≥ total_diffs [(k, imgs)]) :
    ((prepare_sample pick sampleFn [(k, imgs)] s).map
      (fun p => p.2.length)).sum =
      if final_shares pick [(k, imgs)] s k > 0 then
        (sampleFn imgs (final_shares pick [(k, imgs)] s k)).length
      else 0 := by
  rw [prepare_sample_singleton pick sampleFn k imgs s hs]
  by_cases h : final_shares pick [(k, imgs)] s k > 0
  · rw [if_pos h, if_pos h]
    simp
  · rw [if_neg h, if_neg h]
    simp

/-- Counterexample to C4 as stated: for a single dataset with
`2 ^ 54 + 7` difference images and sample size `2 ^ 54 + 6` (strictly
below the total), binary64 rounding makes the preliminary share
`2 ^ 54 + 8` — larger than both the sample size and the dataset's
count — so `remaining` is negative, the loop never runs, and the
selection counts cannot sum to the sample size (CPython's
`random.sample` would in fact raise `ValueError: sample larger than
population`; with the `take` selection model the returned count is
`2 ^ 54 + 7 ≠ 2 ^ 54 + 6`). -/
theorem prepare_sample_sum_mismatch :
    2 ^ 54 + 6 < total_diffs
        [(1, List.replicate (2 ^ 54 + 7) (⟨1, "i"⟩ : ImageInfo))] ∧
      init_shares [(1, List.replicate (2 ^ 54 + 7) (⟨1, "i"⟩ : ImageInfo))]
        (2 ^ 54 + 6) 1 = 2 ^ 54 + 8 ∧
      ((prepare_sample (fun _ => 0) (fun l k => l.take k)
          [(1, List.replicate (2 ^ 54 + 7) (⟨1, "i"⟩ : ImageInfo))]
          (2 ^ 54 + 6)).map (fun p => p.2.length)).sum ≠ 2 ^ 54 + 6 := by
  have htot : total_diffs
      [(1, List.replicate (2 ^ 54 + 7) (⟨1, "i"⟩ : ImageInfo))] =
      2 ^ 54 + 7 := by
    rw [total_diffs_singleton, List.length_replicate]
  have hsh : init_shares [(1, List.replicate (2 ^ 54 + 7) (⟨1, "i"⟩ : ImageInfo))]
      (2 ^ 54 + 6) 1 = 2 ^ 54 + 8 := by
    rw [init_shares, htot, lenOf_singleton, List.length_replicate, pyShare_huge]
  have hrem : init_rem [(1, List.replicate (2 ^ 54 + 7) (⟨1, "i"⟩ : ImageInfo))]
      (2 ^ 54 + 6) = -2 := by
    rw [init_rem_singleton, htot, List.length_replicate, pyShare_huge]
    norm_num
  have hfin : final_shares (fun _ => 0)
      [(1, List.replicate (2 ^ 54 + 7) (⟨1, "i"⟩ : ImageInfo))]
      (2 ^ 54 + 6) 1 = 2 ^ 54 + 8 := by
    rw [final_shares, if_neg (by rw [hrem]; norm_num)]
    exact hsh
  refine ⟨by rw [htot]; norm_num, hsh, ?_⟩
  rw [prepare_sample_singleton_sum _ _ _ _ _ (by rw [htot]; norm_num), hfin,
    if_pos (by norm_num : 2 ^ 54 + 8 > 0), List.length_take,
    List.length_replicate]
  norm_num

theorem extendEntry_ne_nil (m : List (Nat × List ImageInfo)) (k : Nat)
    (v : List ImageInfo) : extendEntry m k v ≠ [] := by
  cases m with
  | nil => simp [extendEntry]
  | cons p rest =>
      obtain ⟨k', v'⟩ := p
      by_cases h : k' = k <;> simp [extendEntry, h]

theorem dictGet_extendEntry (m : List (Nat × List ImageInfo)) (k j : Nat)
    (v : List ImageInfo) :
    dictGet (extendEntry m k v) j =
      if j = k then some ((dictGet m k).getD [] ++ v) else dictGet m j := by
  induction m with
  | nil =>
      by_cases h : j = k
      · simp [extendEntry, dictGet, h]
      · simp [extendEntry, dictGet, h, Ne.symm h]
  | cons p rest ih =>
      obtain ⟨k', v'⟩ := p
      by_cases hk : k' = k <;> by_cases hj : j = k <;>
        by_cases hj2 : k' = j <;> simp_all [extendEntry, dictGet]

theorem extendEntry_extendEntry (m : List (Nat × List ImageInfo)) (k : Nat)
    (v w : List ImageInfo) :
    extendEntry (extendEntry m k v) k w = extendEntry m k (v ++ w) := by
  induction m with
  | nil => simp [extendEntry]
  | cons p rest ih =>
      obtain ⟨k', v'⟩ := p
      by_cases h : k' = k <;> simp [extendEntry, h, ih, List.append_assoc]

theorem imgDictInsert_fresh (m : List (String × ImageInfo)) (img : ImageInfo)
    (h : img.name ∉ m.map Prod.fst) :
    imgDictInsert m img = m ++ [(img.name, img)] := by
  induction m with
  | nil => rfl
  | cons p rest ih =>
      obtain ⟨n, i⟩ := p
      simp only [List.map_cons, List.mem_cons] at h
      push_neg at h
      simp [imgDictInsert, Ne.symm h.1, ih h.2]

theorem imgsByName_aux (l : List ImageInfo) (acc : List (String × ImageInfo))
    (hnd : (l.map ImageInfo.name).Nodup)
    (hfresh : ∀ i ∈ l, i.name ∉ acc.map Prod.fst) :
    l.foldl imgDictInsert acc = acc ++ l.map (fun i => (i.name, i)) := by
  induction l generalizing acc with
  | nil => simp
  | cons img rest ih =>
      simp only [List.map_cons, List.nodup_cons] at hnd
      rw [List.foldl_cons,
        imgDictInsert_fresh acc img (hfresh img (List.mem_cons_self _ _))]
      rw [ih (acc ++ [(img.name, img)]) hnd.2]
      · simp
      · intro i hi
        simp only [List.map_append, List.mem_append]
        push_neg
        refine ⟨hfresh i (List.mem_cons_of_mem _ hi), ?_⟩
        simp only [List.map_cons, List.map_nil, List.mem_singleton]
        intro he
        exact hnd.1 (he ▸ List.mem_map_of_mem ImageInfo.name hi)

theorem imgsByName_of_nodup (l : List ImageInfo)
    (hnd : (l.map ImageInfo.name).Nodup) :
    imgsByName l = l.map (fun i => (i.name, i)) := by
  rw [imgsByName, imgsByName_aux l [] hnd (by simp)]
  rfl

theorem kept_of_mapped (l : List ImageInfo) (dstNames : List String) :
    ((l.map (fun i => (i.name, i))).filter
        (fun p => !(decide (p.1 ∈ dstNames)))).map Prod.snd =
      l.filter (fun i => !(decide (i.name ∈ dstNames))) := by
  induction l with
  | nil => simp
  | cons img rest ih =>
      by_cases h : img.name ∈ dstNames <;>
        simp [List.filter_cons, h, ih]

theorem inner_fold_extend (dstNames : List String) (k : Nat)
    (pairs : List (String × ImageInfo)) (acc : List (Nat × List ImageInfo)) :
    pairs.foldl (fun a p =>
        if p.1 ∈ dstNames then a else extendEntry a k [p.2]) acc =
      if ((pairs.filter (fun p => !(decide (p.1 ∈ dstNames)))).map
          Prod.snd) = [] then acc
      else extendEntry acc k
        ((pairs.filter (fun p => !(decide (p.1 ∈ dstNames)))).map Prod.snd) := by
  induction pairs generalizing acc with
  | nil => simp
  | cons p rest ih =>
      by_cases h : p.1 ∈ dstNames
      · have hf : (p :: rest).filter (fun p => !(decide (p.1 ∈ dstNames))) =
            rest.filter (fun p => !(decide (p.1 ∈ dstNames))) := by
          simp [List.filter_cons, h]
        rw [List.foldl_cons, if_pos h, ih acc, hf]
      · have hf : (p :: rest).filter (fun p => !(decide (p.1 ∈ dstNames))) =
            p :: rest.filter (fun p => !(decide (p.1 ∈ dstNames))) := by
          simp [List.filter_cons, h]
        rw [List.foldl_cons, if_neg h, ih (extendEntry acc k [p.2]), hf,
          List.map_cons]
        by_cases hres : ((rest.filter
            (fun p => !(decide (p.1 ∈ dstNames)))).map Prod.snd) = []
        · rw [if_pos hres, hres]
          simp
        · rw [if_neg hres, if_neg (by simp), extendEntry_extendEntry]
          rfl

theorem diffStep_matched (getList : Nat → List ImageInfo)
    (m : List (Nat × Option Nat)) (acc : List (Nat × List ImageInfo))
    (ds : DatasetInfo) (dstId : Nat)
    (hm : dictGet m ds.id = some (some dstId)) :
    diffStep getList m acc ds =
      (imgsByName (getList ds.id)).foldl
        (fun a p => if p.1 ∈ (getList dstId).map ImageInfo.name then a
          else extendEntry a ds.id [p.2]) acc := by
  rw [diffStep, hm]

theorem diffStep_unmatched (getList : Nat → List ImageInfo)
    (m : List (Nat × Option Nat)) (acc : List (Nat × List ImageInfo))
    (ds : DatasetInfo)
    (hm : (dictGet m ds.id).getD none = none) :
    diffStep getList m acc ds = extendEntry acc ds.id (getList ds.id) := by
  rw [diffStep]
  cases h : dictGet m ds.id with
  | none => rfl
  | some v =>
      rw [h] at hm
      cases v with
      | none => rfl
      | some dstId => simp at hm

theorem dsDiffImages_matched (getList : Nat → List ImageInfo)
    (m : List (Nat × Option Nat)) (ds : DatasetInfo) (dstId : Nat)
    (hm : dictGet m ds.id = some (some dstId)) :
    dsDiffImages getList m ds =
      (if (((imgsByName (getList ds.id)).filter
          (fun p => !(decide (p.1 ∈ (getList dstId).map
            ImageInfo.name)))).map Prod.snd) = [] then none
       else some (((imgsByName (getList ds.id)).filter
          (fun p => !(decide (p.1 ∈ (getList dstId).map
            ImageInfo.name)))).map Prod.snd)) := by
  rw [dsDiffImages, hm]

theorem dsDiffImages_unmatched (getList : Nat → List ImageInfo)
    (m : List (Nat × Option Nat)) (ds : DatasetInfo)
    (hm : (dictGet m ds.id).getD none = none) :
    dsDiffImages getList m ds = some (getList ds.id) := by
  rw [dsDiffImages]
  cases h : dictGet m ds.id with
  | none => rfl
  | some v =>
      rw [h] at hm
      cases v with
      | none => rfl
      | some dstId => simp at hm

theorem diffStep_get_self (getList : Nat → List ImageInfo)
    (m : List (Nat × Option Nat)) (acc : List (Nat × List ImageInfo))
    (ds : DatasetInfo) (hacc : dictGet acc ds.id = none) :
    dictGet (diffStep getList m acc ds) ds.id = dsDiffImages getList m ds := by
  cases hm : dictGet m ds.id with
  | none =>
      rw [diffStep_unmatched _ _ _ _ (by rw [hm]; rfl),
        dsDiffImages_unmatched _ _ _ (by rw [hm]; rfl),
        dictGet_extendEntry, if_pos rfl, hacc]
      rfl
  | some v =>
      cases v with
      | none =>
          rw [diffStep_unmatched _ _ _ _ (by rw [hm]; rfl),
            dsDiffImages_unmatched _ _ _ (by rw [hm]; rfl),
            dictGet_extendEntry, if_pos rfl, hacc]
          rfl
      | some dstId =>
          rw [diffStep_matched _ _ _ _ _ hm, dsDiffImages_matched _ _ _ _ hm,
            inner_fold_extend]
          by_cases hk : (((imgsByName (getList ds.id)).filter
              (fun p => !(decide (p.1 ∈ (getList dstId).map
                ImageInfo.name)))).map Prod.snd) = []
          · rw [if_pos hk, if_pos hk, hacc]
          · rw [if_neg hk, if_neg hk, dictGet_extendEntry, if_pos rfl, hacc]
            rfl

theorem diffStep_get_other (getList : Nat → List ImageInfo)
    (m : List (Nat × Option Nat)) (acc : List (Nat × List ImageInfo))
    (ds : DatasetInfo) (j : Nat) (hj : j ≠ ds.id) :
    dictGet (diffStep getList m acc ds) j = dictGet acc j := by
  cases hm : dictGet m ds.id with
  | none =>
      rw [diffStep_unmatched _ _ _ _ (by rw [hm]; rfl), dictGet_extendEntry,
        if_neg hj]
  | some v =>
      cases v with
      | none =>
          rw [diffStep_unmatched _ _ _ _ (by rw [hm]; rfl),
            dictGet_extendEntry, if_neg hj]
      | some dstId =>
          rw [diffStep_matched _ _ _ _ _ hm, inner_fold_extend]
          by_cases hk : (((imgsByName (getList ds.id)).filter
              (fun p => !(decide (p.1 ∈ (getList dstId).map
                ImageInfo.name)))).map Prod.snd) = []
          · rw [if_pos hk]
          · rw [if_neg hk, dictGet_extendEntry, if_neg hj]

theorem fold_diffStep_other (getList : Nat → List ImageInfo)
    (m : List (Nat × Option Nat)) (l : List DatasetInfo)
    (acc : List (Nat × List ImageInfo)) (j : Nat)
    (hj : j ∉ l.map DatasetInfo.id) :
    dictGet (l.foldl (diffStep getList m) acc) j = dictGet acc j := by
  induction l generalizing acc with
  | nil => rfl
  | cons d rest ih =>
      simp only [List.map_cons, List.mem_cons] at hj
      push_neg at hj
      rw [List.foldl_cons, ih _ hj.2, diffStep_get_other _ _ _ _ _ hj.1]

theorem fold_diffStep_self (getList : Nat → List ImageInfo)
    (m : List (Nat × Option Nat)) (l : List DatasetInfo)
    (acc : List (Nat × List ImageInfo)) (ds : DatasetInfo) (hds : ds ∈ l)
    (hnd : (l.map DatasetInfo.id).Nodup) (hacc : dictGet acc ds.id = none) :
    dictGet (l.foldl (diffStep getList m) acc) ds.id =
      dsDiffImages getList m ds := by
  induction l generalizing acc with
  | nil => simp at hds
  | cons d rest ih =>
      simp only [List.map_cons, List.nodup_cons] at hnd
      rcases List.mem_cons.mp hds with h | h
      · subst h
        rw [List.foldl_cons, fold_diffStep_other _ _ _ _ _ hnd.1,
          diffStep_get_self _ _ _ _ hacc]
      · have hne : ds.id ≠ d.id := by
          intro he
          exact hnd.1 (he ▸ List.mem_map_of_mem DatasetInfo.id h)
        rw [List.foldl_cons]
        exact ih _ h hnd.2
          (by rw [diffStep_get_other _ _ _ _ _ hne, hacc])

/-- C6: for each source dataset in the flat input list (with distinct
dataset IDs and, per the data model, names unique within a dataset),
`get_diffs` yields the dataset's full source listing verbatim when the
correspondence gives no destination dataset, and otherwise exactly the
source images whose name does not occur among the destination dataset's
image names, in source listing order. -/
theorem get_diffs_per_dataset (getList : Nat → List ImageInfo)
    (srcDatasets : List DatasetInfo) (srcTree dstTree : List DsTree)
    (ds : DatasetInfo) (hds : ds ∈ srcDatasets)
    (hnd : (srcDatasets.map DatasetInfo.id).Nodup)
    (hnames : ((getList ds.id).map ImageInfo.name).Nodup) :
    (∀ dstId,
      dictGet (get_diffs getList srcDatasets srcTree dstTree).2.1 ds.id =
          some (some dstId) →
        (dictGet (get_diffs getList srcDatasets srcTree dstTree).1
            ds.id).getD [] =
          (getList ds.id).filter
            (fun img => !(decide (img.name ∈
              (getList dstId).map ImageInfo.name)))) ∧
      ((dictGet (get_diffs getList srcDatasets srcTree dstTree).2.1
          ds.id).getD none = none →
        (dictGet (get_diffs getList srcDatasets srcTree dstTree).1
            ds.id).getD [] = getList ds.id) := by
  have hmain : dictGet (get_diffs getList srcDatasets srcTree dstTree).1
      ds.id = dsDiffImages getList
        (create_dataset_mapping srcTree dstTree).1 ds := by
    show dictGet (srcDatasets.foldl
      (diffStep getList (create_dataset_mapping srcTree dstTree).1) []) ds.id = _
    exact fold_diffStep_self _ _ _ _ ds hds hnd rfl
  have hm2 : (get_diffs getList srcDatasets srcTree dstTree).2.1 =
      (create_dataset_mapping srcTree dstTree).1 := rfl
  constructor
  · intro dstId hdst
    rw [hm2] at hdst
    rw [hmain, dsDiffImages_matched _ _ _ _ hdst,
      imgsByName_of_nodup _ hnames, kept_of_mapped]
    by_cases hk : (getList ds.id).filter
        (fun img => !(decide (img.name ∈
          (getList dstId).map ImageInfo.name))) = []
    · rw [if_pos hk, hk]
      rfl
    · rw [if_neg hk]
      rfl
  · intro habs
    rw [hm2] at habs
    rw [hmain, dsDiffImages_unmatched _ _ _ habs]
    rfl

/-- Witness for the C6 theorem: two source datasets, one matched (its
destination has one of its two image names) and one with no counterpart;
the matched one keeps exactly the unmatched-by-name image, the other
keeps its full listing. -/
theorem get_diffs_per_dataset_witness :
    (∀ dstId,
      dictGet (get_diffs
          (fun i => if i = 1 then [⟨21, "x"⟩, ⟨22, "y"⟩]
            else if i = 10 then [⟨31, "y"⟩] else [])
          [⟨1, "a", none⟩] [.node ⟨1, "a", none⟩ []]
          [.node ⟨10, "a", none⟩ []]).2.1 1 = some (some dstId) →
        (dictGet (get_diffs
            (fun i => if i = 1 then [⟨21, "x"⟩, ⟨22, "y"⟩]
              else if i = 10 then [⟨31, "y"⟩] else [])
            [⟨1, "a", none⟩] [.node ⟨1, "a", none⟩ []]
            [.node ⟨10, "a", none⟩ []]).1 1).getD [] =
          [(⟨21, "x"⟩ : ImageInfo), ⟨22, "y"⟩].filter
            (fun img => !(decide (img.name ∈
              ((fun i => if i = 1 then [(⟨21, "x"⟩ : ImageInfo), ⟨22, "y"⟩]
                else if i = 10 then [⟨31, "y"⟩] else []) dstId).map
                ImageInfo.name)))) ∧
      ((dictGet (get_diffs
          (fun i => if i = 1 then [⟨21, "x"⟩, ⟨22, "y"⟩]
            else if i = 10 then [⟨31, "y"⟩] else [])
          [⟨1, "a", none⟩] [.node ⟨1, "a", none⟩ []]
          [.node ⟨10, "a", none⟩ []]).2.1 1).getD none = none →
        (dictGet (get_diffs
            (fun i => if i = 1 then [⟨21, "x"⟩, ⟨22, "y"⟩]
              else if i = 10 then [⟨31, "y"⟩] else [])
            [⟨1, "a", none⟩] [.node ⟨1, "a", none⟩ []]
            [.node ⟨10, "a", none⟩ []]).1 1).getD [] =
          [⟨21, "x"⟩, ⟨22, "y"⟩]) := by
  have h := get_diffs_per_dataset
    (fun i => if i = 1 then [⟨21, "x"⟩, ⟨22, "y"⟩]
      else if i = 10 then [⟨31, "y"⟩] else [])
    [⟨1, "a", none⟩] [.node ⟨1, "a", none⟩ []] [.node ⟨10, "a", none⟩ []]
    ⟨1, "a", none⟩ (by decide) (by decide) (by decide)
  exact h

theorem diffStep_eq_nil_iff (getList : Nat → List ImageInfo)
    (m : List (Nat × Option Nat)) (acc : List (Nat × List ImageInfo))
    (ds : DatasetInfo) :
    diffStep getList m acc ds = [] ↔
      acc = [] ∧ dsDiffImages getList m ds = none := by
  cases hm : dictGet m ds.id with
  | none =>
      rw [diffStep_unmatched _ _ _ _ (by rw [hm]; rfl),
        dsDiffImages_unmatched _ _ _ (by rw [hm]; rfl)]
      simp [extendEntry_ne_nil]
  | some v =>
      cases v with
      | none =>
          rw [diffStep_unmatched _ _ _ _ (by rw [hm]; rfl),
            dsDiffImages_unmatched _ _ _ (by rw [hm]; rfl)]
          simp [extendEntry_ne_nil]
      | some dstId =>
          rw [diffStep_matched _ _ _ _ _ hm, dsDiffImages_matched _ _ _ _ hm,
            inner_fold_extend]
          by_cases hk : (((imgsByName (getList ds.id)).filter
              (fun p => !(decide (p.1 ∈ (getList dstId).map
                ImageInfo.name)))).map Prod.snd) = []
          · rw [if_pos hk, if_pos hk]
            simp
          · rw [if_neg hk, if_neg hk]
            simp [extendEntry_ne_nil]

theorem fold_diffStep_eq_nil_iff (getList : Nat → List ImageInfo)
    (m : List (Nat × Option Nat)) (l : List DatasetInfo)
    (acc : List (Nat × List ImageInfo)) :
    l.foldl (diffStep getList m) acc = [] ↔
      acc = [] ∧ ∀ ds ∈ l, dsDiffImages getList m ds = none := by
  induction l generalizing acc with
  | nil => simp
  | cons d rest ih =>
      rw [List.foldl_cons, ih, diffStep_eq_nil_iff]
      constructor
      · rintro ⟨⟨h1, h2⟩, h3⟩
        exact ⟨h1, fun ds hds => by
          rcases List.mem_cons.mp hds with h | h
          · exact h ▸ h2
          · exact h3 ds h⟩
      · rintro ⟨h1, h2⟩
        exact ⟨⟨h1, h2 d (List.mem_cons_self d rest)⟩,
          fun ds hds => h2 ds (List.mem_cons_of_mem d hds)⟩

/-- C5 counterexample scenario: a single source dataset with no
destination counterpart and zero images. No source dataset has any
difference image, yet `get_diffs` returns the truthy (non-empty)
dictionary `\x7b1: []\x7d`: the `defaultdict` entry is created by
`diff_images[src_ds.id].extend(src_imgs)` even when `src_imgs` is
empty, so the DifferenceSet is not falsy. -/
theorem get_diffs_empty_dataset_truthy :
    (get_diffs (fun _ => []) [⟨1, "a", none⟩]
        [.node ⟨1, "a", none⟩ []] []).1 = [(1, [])] ∧
      (get_diffs (fun _ => []) [⟨1, "a", none⟩]
        [.node ⟨1, "a", none⟩ []] []).1 ≠ [] ∧
      ∀ p ∈ (get_diffs (fun _ => []) [⟨1, "a", none⟩]
        [.node ⟨1, "a", none⟩ []] []).1, p.2 = ([] : List ImageInfo) := by
  have h1 : (get_diffs (fun _ => []) [⟨1, "a", none⟩]
      [.node ⟨1, "a", none⟩ []] []).1 = [(1, [])] := rfl
  refine ⟨h1, by decide, ?_⟩
  intro p hp
  rw [h1] at hp
  have : p = (1, ([] : List ImageInfo)) := by simpa using hp
  rw [this]

/-- C5 (amended): `get_diffs` returns an empty (falsy) DifferenceSet
exactly when every source dataset has a destination counterpart in the
correspondence and contributes no difference image (every source image
name already occurs in the counterpart) — a counterpart-less dataset
always yields an entry, even an empty one — and `run_random_sample`
treats the empty result as nothing-to-do, returning a null result. -/
theorem get_diffs_empty_iff_null_result (getList : Nat → List ImageInfo)
    (srcDatasets : List DatasetInfo) (srcTree dstTree : List DsTree)
    (sample_size : Nat) (pick : Nat → Nat)
    (sampleFn : List ImageInfo → Nat → List ImageInfo) (st0 : ApiState) :
    ((get_diffs getList srcDatasets srcTree dstTree).1 = [] ↔
      ∀ ds ∈ srcDatasets,
        dsDiffImages getList
          (create_dataset_mapping srcTree dstTree).1 ds = none) ∧
    ((get_diffs getList srcDatasets srcTree dstTree).1 = [] →
      run_random_sample getList srcDatasets srcTree dstTree sample_size
        pick sampleFn st0 = none) := by
  constructor
  · show (srcDatasets.foldl
        (diffStep getList (create_dataset_mapping srcTree dstTree).1) [])
          = [] ↔ _
    rw [fold_diffStep_eq_nil_iff]
    simp
  · intro hnil
    rw [run_random_sample]
    by_cases hs : sample_size = 0
    · rw [if_pos hs]
    · rw [if_neg hs, if_pos hnil]

/-- Witness for the C5 theorem: with no source datasets at all the
DifferenceSet is empty, the per-dataset condition holds vacuously, and
`run_random_sample` returns the null result. -/
theorem get_diffs_empty_iff_null_result_witness :
    ((get_diffs (fun _ => []) [] [] []).1 = [] ↔
      ∀ ds ∈ ([] : List DatasetInfo),
        dsDiffImages (fun _ => [])
          (create_dataset_mapping [] []).1 ds = none) ∧
    run_random_sample (fun _ => []) [] [] [] 5 (fun _ => 0)
      (fun l k => l.take k) ⟨100, []⟩ = none := by
  have h := get_diffs_empty_iff_null_result (fun _ => []) [] [] [] 5
    (fun _ => 0) (fun l k => l.take k) ⟨100, []⟩
  exact ⟨h.1, h.2 rfl⟩

/-- C1: the code walks `src_child_to_parents[src_ds_id]`, which lists
ancestors nearest-parent-first, and creates a destination dataset for
each in that order, threading `dst_parent_id` — so for the chain
root → mid → leaf with leaf selected, it creates "mid" first at top
level, then "root" UNDER the new "mid", then "leaf" under "root": the
destination hierarchy is inverted, contradicting the claimed
most-distant-ancestor-first order. -/
theorem copy_creates_ancestors_inverted :
    (copy_or_move_images
        [⟨1, "root", none⟩, ⟨2, "mid", some 1⟩, ⟨3, "leaf", some 2⟩]
        [(1, none), (2, none), (3, none)]
        [(3, [⟨50, "img"⟩])] [1, 2, 3] false ⟨100, []⟩).api.trace =
      [.created 100 "mid" none,
       .created 101 "root" (some 100),
       .created 102 "leaf" (some 101),
       .copied 3 (some 102) [50] [103]] := by
  decide

/-- C2: `create_ancestors` (lines 192-198) never consults the
correspondence before creating an ancestor — `src_to_dst_map[parent_id]`
is written but never read in that loop — so a parent "P" shared by two
selected children "A" and "B" is created twice (events
`created 100 "P" none` and `created 103 "P" none`), contradicting the
claimed created-exactly-once behavior. -/
theorem shared_ancestor_created_twice :
    (copy_or_move_images
        [⟨1, "P", none⟩, ⟨2, "A", some 1⟩, ⟨3, "B", some 1⟩]
        [(1, none), (2, none), (3, none)]
        [(2, [⟨50, "a"⟩]), (3, [⟨51, "b"⟩])] [1, 2, 3] false
        ⟨100, []⟩).api.trace =
      [.created 100 "P" none,
       .created 101 "A" (some 100),
       .copied 2 (some 101) [50] [102],
       .created 103 "P" none,
       .created 104 "B" (some 103),
       .copied 3 (some 104) [51] [105]] ∧
    ((copy_or_move_images
        [⟨1, "P", none⟩, ⟨2, "A", some 1⟩, ⟨3, "B", some 1⟩]
        [(1, none), (2, none), (3, none)]
        [(2, [⟨50, "a"⟩]), (3, [⟨51, "b"⟩])] [1, 2, 3] false
        ⟨100, []⟩).api.trace.countP
      (fun e => match e with
        | ApiEvent.created _ n _ => n = "P"
        | _ => false)) = 2 := by
  constructor
  · decide
  · decide

theorem chunks_join {α : Type} (n : Nat) (l : List α) :
    (chunks (n + 1) l).join = l := by
  have H : ∀ N (l' : List α), l'.length = N →
      (chunks (n + 1) l').join = l' := by
    intro N
    induction N using Nat.strong_induction_on with
    | _ N ih =>
        intro l' hN
        cases l' with
        | nil => simp [chunks]
        | cons x xs =>
            rw [chunks]
            show List.take (n + 1) (x :: xs) ++
              (chunks (n + 1) (List.drop (n + 1) (x :: xs))).join = x :: xs
            have hdrop : ((x :: xs).drop (n + 1)).length < N := by
              subst hN
              simp only [List.length_drop, List.length_cons]
              omega
            rw [ih _ hdrop _ rfl]
            exact List.take_append_drop (n + 1) (x :: xs)
  exact H l.length l rfl

theorem chunks_length_le {α : Type} (n : Nat) (l : List α) :
    ∀ b ∈ chunks (n + 1) l, b.length ≤ n + 1 := by
  have H : ∀ N (l' : List α), l'.length = N →
      ∀ b ∈ chunks (n + 1) l', b.length ≤ n + 1 := by
    intro N
    induction N using Nat.strong_induction_on with
    | _ N ih =>
        intro l' hN
        cases l' with
        | nil => simp [chunks]
        | cons x xs =>
            rw [chunks]
            intro b hb
            rcases List.mem_cons.mp hb with h | h
            · subst h
              exact List.length_take_le _ _
            · have hdrop : ((x :: xs).drop (n + 1)).length < N := by
                subst hN
                simp only [List.length_drop, List.length_cons]
                omega
              exact ih _ hdrop _ rfl b h
  exact H l.length l rfl

theorem ancestorStep_trace (dss : List DatasetInfo)
    (p : Option Nat × TransferState) (parentId : Nat) :
    ∃ i nm pp, (ancestorStep dss p parentId).2.api.trace =
      p.2.api.trace ++ [ApiEvent.created i nm pp] :=
  ⟨p.2.api.nextId, _, p.1, rfl⟩

theorem ancestor_fold_trace (dss : List DatasetInfo) (parents : List Nat)
    (p0 : Option Nat × TransferState) :
    ∃ cr, (∀ e ∈ cr, ∃ i nm pp, e = ApiEvent.created i nm pp) ∧
      (parents.foldl (ancestorStep dss) p0).2.api.trace =
        p0.2.api.trace ++ cr := by
  induction parents generalizing p0 with
  | nil => exact ⟨[], by simp, by simp⟩
  | cons d rest ih =>
      obtain ⟨i, nm, pp, h1⟩ := ancestorStep_trace dss p0 d
      obtain ⟨cr, hcr, h2⟩ := ih (ancestorStep dss p0 d)
      refine ⟨ApiEvent.created i nm pp :: cr, ?_, ?_⟩
      · intro e he
        rcases List.mem_cons.mp he with h | h
        · exact ⟨i, nm, pp, h⟩
        · exact hcr e h
      · rw [List.foldl_cons, h2, h1]
        simp

theorem comStep_move_trace (dss : List DatasetInfo) (c : List Nat)
    (st : TransferState) (k : Nat) (imgs : List ImageInfo)
    (hlen : 0 < imgs.length) :
    ∃ cr dst newIds, (∀ e ∈ cr, ∃ i nm pp, e = ApiEvent.created i nm pp) ∧
      (comStep dss c true st (k, imgs)).api.trace =
        st.api.trace ++ cr ++
          [ApiEvent.copied k dst (imgs.map ImageInfo.id) newIds] ++
          (chunks 200 (imgs.map ImageInfo.id)).map ApiEvent.deleted := by
  rw [comStep]
  simp only [if_pos hlen]
  by_cases hcond : ((dictGet st.map k).getD none = none ∧ k ∈ c)
  · rw [if_pos hcond]
    obtain ⟨cr0, hcr0, h0⟩ := ancestor_fold_trace dss
      (src_child_to_parents dss k) (none, st)
    have h0' : (create_ancestors dss st
        (src_child_to_parents dss k)).2.api.trace =
        st.api.trace ++ cr0 := h0
    refine ⟨cr0 ++ [ApiEvent.created
        (create_ancestors dss st (src_child_to_parents dss k)).2.api.nextId
        (match findDs dss k with | some i => i.name | none => "")
        (create_ancestors dss st (src_child_to_parents dss k)).1],
      some (create_ancestors dss st
        (src_child_to_parents dss k)).2.api.nextId,
      (List.range (imgs.map ImageInfo.id).length).map
        (fun i => (create_ancestors dss st
          (src_child_to_parents dss k)).2.api.nextId + 1 + i),
      ?_, ?_⟩
    · intro e he
      rcases List.mem_append.mp he with h | h
      · exact hcr0 e h
      · exact ⟨_, _, _, (List.mem_singleton.mp h)⟩
    · simp only [apiCreate, apiCopy, apiRemoveBatch, h0']
      simp
  · rw [if_neg hcond]
    refine ⟨[], (dictGet st.map k).getD none,
      (List.range (imgs.map ImageInfo.id).length).map
        (fun i => st.api.nextId + i), by simp, ?_⟩
    simp only [apiCopy, apiRemoveBatch]
    simp

theorem comStep_trace_mono (dss : List DatasetInfo) (c : List Nat)
    (st : TransferState) (e : Nat × List ImageInfo) :
    ∃ t, (comStep dss c true st e).api.trace = st.api.trace ++ t := by
  obtain ⟨k, imgs⟩ := e
  by_cases hlen : 0 < imgs.length
  · obtain ⟨cr, dst, newIds, _, hb⟩ := comStep_move_trace dss c st k imgs hlen
    refine ⟨cr ++ [ApiEvent.copied k dst (imgs.map ImageInfo.id) newIds] ++
      (chunks 200 (imgs.map ImageInfo.id)).map ApiEvent.deleted, ?_⟩
    rw [hb]
    simp [List.append_assoc]
  · rw [comStep]
    simp only [if_neg hlen]
    exact ⟨[], by simp⟩

theorem fold_comStep_trace_mono (dss : List DatasetInfo) (c : List Nat)
    (l : List (Nat × List ImageInfo)) (st : TransferState) :
    ∃ t, (l.foldl (comStep dss c true) st).api.trace =
      st.api.trace ++ t := by
  induction l generalizing st with
  | nil => exact ⟨[], by simp⟩
  | cons e rest ih =>
      obtain ⟨t1, h1⟩ := comStep_trace_mono dss c st e
      obtain ⟨t2, h2⟩ := ih (comStep dss c true st e)
      exact ⟨t1 ++ t2, by rw [List.foldl_cons, h2, h1, List.append_assoc]⟩

/-- C8: in `copy_or_move_images` with `move = true`, for every processed
dataset (a sampled entry with a nonempty image list) the request trace
contains the copy request for that dataset immediately followed by its
delete requests (copy-then-delete, never delete-then-copy); each delete
request carries at most 200 image IDs, and the delete batches
concatenate to exactly the selected image IDs, covering each exactly
once. -/
theorem copy_then_delete_batched (dss : List DatasetInfo)
    (m : List (Nat × Option Nat)) (sampled : List (Nat × List ImageInfo))
    (c : List Nat) (st0 : ApiState) (k : Nat) (imgs : List ImageInfo)
    (hmem : (k, imgs) ∈ sampled) (hlen : 0 < imgs.length) :
    (∃ pre suf dst newIds,
      (copy_or_move_images dss m sampled c true st0).api.trace =
        pre ++
          ApiEvent.copied k dst (imgs.map ImageInfo.id) newIds ::
            ((chunks 200 (imgs.map ImageInfo.id)).map ApiEvent.deleted ++
              suf)) ∧
    (chunks 200 (imgs.map ImageInfo.id)).join = imgs.map ImageInfo.id ∧
    (∀ b ∈ chunks 200 (imgs.map ImageInfo.id), b.length ≤ 200) := by
  refine ⟨?_, chunks_join 199 _, chunks_length_le 199 _⟩
  obtain ⟨l1, l2, hsplit⟩ := List.append_of_mem hmem
  rw [copy_or_move_images, hsplit, List.foldl_append, List.foldl_cons]
  set stA := l1.foldl (comStep dss c true)
    { map := m, api := st0, src := [], added := [] } with hstA
  obtain ⟨cr, dst, newIds, hcr, hblock⟩ :=
    comStep_move_trace dss c stA k imgs hlen
  obtain ⟨t2, h2⟩ := fold_comStep_trace_mono dss c l2
    (comStep dss c true stA (k, imgs))
  refine ⟨stA.api.trace ++ cr, t2, dst, newIds, ?_⟩
  rw [h2, hblock]
  simp

/-- Witness for the C8 theorem: a single selected dataset with one
image and an already-resolved destination. -/
theorem copy_then_delete_batched_witness :
    ((∃ pre suf dst newIds,
      (copy_or_move_images [] [(1, some 5)] [(1, [⟨50, "a"⟩])] [] true
          ⟨100, []⟩).api.trace =
        pre ++
          ApiEvent.copied 1 dst ([(⟨50, "a"⟩ : ImageInfo)].map
              ImageInfo.id) newIds ::
            ((chunks 200 ([(⟨50, "a"⟩ : ImageInfo)].map
              ImageInfo.id)).map ApiEvent.deleted ++ suf)) ∧
    (chunks 200 ([(⟨50, "a"⟩ : ImageInfo)].map ImageInfo.id)).join =
      [(⟨50, "a"⟩ : ImageInfo)].map ImageInfo.id ∧
    (∀ b ∈ chunks 200 ([(⟨50, "a"⟩ : ImageInfo)].map ImageInfo.id),
      b.length ≤ 200)) :=
  copy_then_delete_batched [] [(1, some 5)] [(1, [⟨50, "a"⟩])] [] ⟨100, []⟩
    1 [⟨50, "a"⟩] (by decide) (by decide)

end DataOrg
